import Mathlib

/-!
Verification of the relationship-graph analysis and diagram-layout engine
(`tools/pbip_layout_optimizer`): a shallow embedding of the analyzers
(`RelationshipAnalyzer`, `TableCategorizer`), the positioning components
(`DimensionOptimizer`, `UniversalChainAlignment`, `PositionCalculator`,
`ChainAwarePositionGenerator`) and the `MiddleOutLayoutEngine` glue, together
with theorems about the categorization partition, BFS distance, star-schema
detection, extension detection and repositioning, chain reorganization,
determinism, and the generated rectangle records.

Conventions of the embedding:
* Python `str` is Lean `String`; the case-folding, containment, prefix and
  counting operations used by the source are defined below over `String.data`
  so that they evaluate inside the kernel.
* A Python `Dict[str, Set[str]]` connection graph is an association list
  `List (String × List String)`; the stored neighbour list enumerates the set.
  Python set-iteration order is process-dependent (hash randomization), so the
  enumeration order of each neighbour list is an input of the model.
* Python `int` is `Nat` (all quantities involved are non-negative counts and
  pixel offsets); heuristic scores that can go negative are `Int`; the one
  fractional score (`0.5`/`0.01` weights in the extension naming heuristic) is
  scaled by 100 to exact integers.
* TMDL file content consulted by the categorizer (hidden flags, column counts,
  calculation-group markers) is an input: the spec lists these per-table
  structural hints among the engine's inputs, "supplied as a side lookup, not
  re-derived by this engine".  They are modelled by the `TmdlHints` record.
* The two unbounded-loop constructs (the BFS queue and substring replacement)
  take explicit fuel / use well-founded recursion; a sufficiency bound for the
  BFS fuel is proved.
-/

namespace PbipLayout

/-! ## String helpers (kernel-reducible forms of the Python `str` operations) -/

/-- Python `str.lower()` restricted to ASCII, as used on the table names. -/
def strLower (s : String) : String := ⟨s.data.map Char.toLower⟩

/-- `needle in hay` on char lists: some tail of `hay` starts with `needle`. -/
def subOf (needle hay : List Char) : Bool :=
  hay.tails.any (fun t => needle.isPrefixOf t)

/-- Python `needle in hay` for strings. -/
def strContains (hay needle : String) : Bool := subOf needle.data hay.data

/-- Python `hay.startswith(p)`. -/
def strStarts (hay p : String) : Bool := p.data.isPrefixOf hay.data

/-- Python `s.count(c)` for a single character. -/
def strCountChar (s : String) (c : Char) : Nat := s.data.count c

/-- Python `len(s)` (number of characters). -/
def strLen (s : String) : Nat := s.data.length

/-- Lexicographic `<` on code points, Python's `str.__lt__` for the names used. -/
def chLt : List Char → List Char → Bool
  | _, [] => false
  | [], _ :: _ => true
  | a :: as, b :: bs =>
    if a.toNat < b.toNat then true
    else if b.toNat < a.toNat then false
    else chLt as bs

/-- Python `a < b` on strings. -/
def strLt (a b : String) : Bool := chLt a.data b.data

/-- The recursion of Python `s.replace` over char lists, with one unit of
fuel per input character (each step consumes at least one character, so
`l.length` fuel always suffices and the fuel-exhausted case is unreachable). -/
def replaceChF : Nat → List Char → List Char → List Char → List Char
  | _, [], _, _ => []
  | 0, l, _, _ => l
  | fuel + 1, c :: rest, needle, repl =>
    if needle.isPrefixOf (c :: rest) && 0 < needle.length then
      repl ++ replaceChF fuel (rest.drop (needle.length - 1)) needle repl
    else
      c :: replaceChF fuel rest needle repl

/-- Python `s.replace(needle, repl)` (all occurrences) over char lists. -/
def replaceCh (l needle repl : List Char) : List Char :=
  replaceChF l.length l needle repl

/-- Python `s.replace(needle, repl)` for strings. -/
def strReplace (s needle repl : String) : String :=
  ⟨replaceCh s.data needle.data repl.data⟩

/-- `any(ind in s for ind in l)`. -/
def containsAny (s : String) (l : List String) : Bool :=
  l.any (fun ind => strContains s ind)

/-- `any(s.startswith(p) for p in l)`. -/
def startsAny (s : String) (l : List String) : Bool :=
  l.any (fun p => strStarts s p)

/-! ## Data model

`Rel` is a parsed relationship record (`parse_relationships_from_tmdl` output);
absent TMDL attributes are `none`.  `Conn` is the symmetric connection graph
built by `RelationshipAnalyzer.build_relationship_graph`. -/

structure Rel where
  name : String
  fromTable : String
  toTable : String
  fromCardinality : Option String := none
  toCardinality : Option String := none
  crossFilteringBehavior : Option String := none
deriving Repr, DecidableEq

/-- `Dict[str, Set[str]]`: association list from table name to its neighbour
set, the stored list enumerating the Python set. -/
abbrev Conn := List (String × List String)

/-- `connections.get(t, set())`. -/
def nbrs (g : Conn) (t : String) : List String :=
  match g.lookup t with
  | some l => l
  | none => []

/-- `len(connections.get(t, set()))`. -/
def connCount (g : Conn) (t : String) : Nat := (nbrs g t).length

/-- `connections[a].add(b)` on the association list (set add: no duplicate). -/
def addConn (g : Conn) (a b : String) : Conn :=
  match g with
  | [] => [(a, [b])]
  | (k, vs) :: rest =>
    if k = a then (k, if b ∈ vs then vs else vs ++ [b]) :: rest
    else (k, vs) :: addConn rest a b

/-- `RelationshipAnalyzer.build_relationship_graph`: adds a bidirectional edge
for each record whose two endpoints are both known table names; records with a
missing endpoint or an unknown table are dropped (warning only). -/
def build_relationship_graph (rels : List Rel) (allTables : List String) : Conn :=
  rels.foldl
    (fun g r =>
      if r.fromTable ≠ "" ∧ r.toTable ≠ "" then
        if r.fromTable ∈ allTables ∧ r.toTable ∈ allTables then
          addConn (addConn g r.fromTable r.toTable) r.toTable r.fromTable
        else g
      else g)
    []

/-! ## `RelationshipAnalyzer.calculate_distance_to_facts` (BFS) -/

/-- The loop of `calculate_distance_to_facts`: a FIFO queue of
`(table, distance)` pairs and a visited set.  Popping a visited table skips it;
otherwise the table's neighbours are scanned — a neighbour in `facts` returns
`distance + 1` at once, the unvisited others are appended with `distance + 1`.
`none` is fuel exhaustion (never reached for sufficient fuel, see
`bfsLoop_terminates`); an emptied queue yields the sentinel `999`. -/
def bfsLoop (g : Conn) (facts : List String) :
    Nat → List (String × Nat) → List String → Option Nat
  | 0, _, _ => none
  | _ + 1, [], _ => some 999
  | fuel + 1, (t, d) :: q, visited =>
    if t ∈ visited then bfsLoop g facts fuel q visited
    else
      let ns := nbrs g t
      if ns.any (fun n => n ∈ facts) then some (d + 1)
      else
        bfsLoop g facts fuel
          (q ++ (ns.filter (fun n => n ∉ (t :: visited))).map (fun n => (n, d + 1)))
          (t :: visited)

/-- Node universe of a BFS run: the start table and every stored neighbour. -/
def bfsUniverse (g : Conn) (t : String) : List String :=
  t :: (g.map Prod.snd).flatten

/-- A fuel amount sufficient for `bfsLoop` to terminate (proved below). -/
def bfsFuel (g : Conn) (t : String) : Nat :=
  2 + (((bfsUniverse g t).dedup).map (fun x => 1 + (nbrs g x).length)).sum

/-- `RelationshipAnalyzer.calculate_distance_to_facts` with explicit fuel. -/
def calculate_distance_to_facts (g : Conn) (facts : List String) (t : String)
    (fuel : Nat) : Option Nat :=
  if t ∈ facts then some 0 else bfsLoop g facts fuel [(t, 0)] []

/-- The value of `calculate_distance_to_facts` at the proven-sufficient fuel. -/
def distanceToFacts (g : Conn) (facts : List String) (t : String) : Nat :=
  (calculate_distance_to_facts g facts t (bfsFuel g t)).getD 999

/-! Specification-side notions for the BFS theorems. -/

/-- A walk of the given length along stored neighbour links. -/
inductive Walk (g : Conn) : String → String → Nat → Prop
  | nil (a : String) : Walk g a a 0
  | cons {a b c : String} {n : Nat} :
      b ∈ nbrs g a → Walk g b c n → Walk g a c (n + 1)

/-- Some member of `facts` is reachable from `t` in exactly `n` hops. -/
def ReachesFact (g : Conn) (facts : List String) (t : String) (n : Nat) : Prop :=
  ∃ f, f ∈ facts ∧ Walk g t f n

/-- `d` is the minimal hop count from `t` to the fact set. -/
def IsMinFactDist (g : Conn) (facts : List String) (t : String) (d : Nat) : Prop :=
  ReachesFact g facts t d ∧ ∀ n, ReachesFact g facts t n → d ≤ n

/-- A walk from a non-fact `a` that first meets the fact set at its last node,
after the stated number of hops. -/
inductive WalkAF (g : Conn) (facts : List String) : String → Nat → Prop
  | hit {a b : String} : a ∉ facts → b ∈ nbrs g a → b ∈ facts → WalkAF g facts a 1
  | cons {a b : String} {n : Nat} :
      a ∉ facts → b ∈ nbrs g a → WalkAF g facts b n → WalkAF g facts a (n + 1)

lemma walk_zero {g : Conn} {a b : String} (w : Walk g a b 0) : a = b := by
  cases w; rfl

lemma walk_snoc {g : Conn} {a b c : String} {n : Nat}
    (w : Walk g a b n) (h : c ∈ nbrs g b) : Walk g a c (n + 1) := by
  induction w with
  | nil => exact Walk.cons h (Walk.nil _)
  | cons hb _ ih => exact Walk.cons hb (ih h)

lemma walk_last_step {g : Conn} :
    ∀ {n : Nat} {a c : String}, Walk g a c (n + 1) →
      ∃ b, Walk g a b n ∧ c ∈ nbrs g b := by
  intro n
  induction n with
  | zero =>
    intro a c w
    cases w with
    | cons hb w' => cases walk_zero w'; exact ⟨a, Walk.nil a, hb⟩
  | succ m ih =>
    intro a c w
    cases w with
    | cons hb w' =>
      obtain ⟨y, wy, hc⟩ := ih w'
      exact ⟨y, Walk.cons hb wy, hc⟩

lemma WalkAF.one_le {g : Conn} {facts : List String} {y : String} {m : Nat}
    (w : WalkAF g facts y m) : 1 ≤ m := by
  cases w <;> omega

lemma WalkAF.start_not_fact {g : Conn} {facts : List String} {y : String} {m : Nat}
    (w : WalkAF g facts y m) : y ∉ facts := by
  cases w <;> assumption

lemma walkAF_of_walk {g : Conn} {facts : List String} :
    ∀ {t f : String} {n : Nat}, Walk g t f n → f ∈ facts → t ∉ facts →
      ∃ m, m ≤ n ∧ WalkAF g facts t m := by
  intro t f n w
  induction w with
  | nil => intro hf ht; exact absurd hf ht
  | @cons a b c n hb w ih =>
    intro hf ha
    by_cases hbf : b ∈ facts
    · exact ⟨1, by omega, WalkAF.hit ha hb hbf⟩
    · obtain ⟨m, hm, waf⟩ := ih hf hbf
      exact ⟨m + 1, by omega, WalkAF.cons ha hb waf⟩

lemma walk_of_walkAF {g : Conn} {facts : List String} :
    ∀ {y : String} {m : Nat}, WalkAF g facts y m → ∃ f, f ∈ facts ∧ Walk g y f m := by
  intro y m w
  induction w with
  | hit _ hb hbf => exact ⟨_, hbf, Walk.cons hb (Walk.nil _)⟩
  | cons _ hb _ ih =>
    obtain ⟨f, hff, wf⟩ := ih
    exact ⟨f, hff, Walk.cons hb wf⟩

/-- Ghost-state invariant of the BFS loop.  `vp` records, for each visited
table, the distance at which it was expanded; the remaining fields are the
standard BFS queue invariants (distances realizable and non-decreasing, the
queue at most one level wide, neighbours of expanded tables captured by the
visited set or the queue one level deeper). -/
structure BfsInv (g : Conn) (facts : List String) (start : String)
    (q : List (String × Nat)) (visited : List String)
    (vp : List (String × Nat)) : Prop where
  vmap : vp.map Prod.fst = visited
  qwalk : ∀ x dx, (x, dx) ∈ q → Walk g start x dx ∧ x ∉ facts
  vwalk : ∀ v dv, (v, dv) ∈ vp → Walk g start v dv ∧ v ∉ facts
  sorted : q.Pairwise (fun a b => a.2 ≤ b.2)
  band : ∀ x ∈ q, ∀ y ∈ q, y.2 ≤ x.2 + 1
  vq : ∀ v dv, (v, dv) ∈ vp → ∀ x dx, (x, dx) ∈ q → dv ≤ dx
  clos : ∀ v dv, (v, dv) ∈ vp → ∀ w, w ∈ nbrs g v →
      w ∉ facts ∧ ((∃ dw, (w, dw) ∈ vp ∧ dw ≤ dv + 1) ∨ (∃ dw, (w, dw) ∈ q ∧ dw ≤ dv + 1))
  kk : ∀ x dx, (x, dx) ∈ q → ∀ dv, (x, dv) ∈ vp → dv ≤ dx
  si : start ∈ visited ∨ ∃ d0, (start, d0) ∈ q

lemma mem_vp_of_visited {vp : List (String × Nat)} {visited : List String}
    (hm : vp.map Prod.fst = visited) {t : String} (ht : t ∈ visited) :
    ∃ dv, (t, dv) ∈ vp := by
  rw [← hm] at ht
  obtain ⟨⟨a, b⟩, hab, rfl⟩ := List.mem_map.mp ht
  exact ⟨b, hab⟩

lemma visited_of_mem_vp {vp : List (String × Nat)} {visited : List String}
    (hm : vp.map Prod.fst = visited) {t : String} {dv : Nat}
    (ht : (t, dv) ∈ vp) : t ∈ visited := by
  rw [← hm]
  exact List.mem_map.mpr ⟨(t, dv), ht, rfl⟩

lemma bfsInv_init {g : Conn} {facts : List String} {t : String} (h : t ∉ facts) :
    BfsInv g facts t [(t, 0)] [] [] := by
  refine ⟨rfl, ?_, ?_, ?_, ?_, ?_, ?_, ?_, ?_⟩
  · intro x dx hx
    rcases List.mem_singleton.mp hx with heq
    injection heq with h1 h2; subst h1; subst h2
    exact ⟨Walk.nil _, h⟩
  · intro v dv hv; simp at hv
  · simp
  · intro x hx y hy
    rcases List.mem_singleton.mp hx with rfl
    rcases List.mem_singleton.mp hy with rfl
    omega
  · intro v dv hv; simp at hv
  · intro v dv hv; simp at hv
  · intro x dx hx dv hv; simp at hv
  · exact Or.inr ⟨0, List.mem_singleton.mpr rfl⟩

lemma bfsInv_skip {g : Conn} {facts : List String} {start t : String} {d : Nat}
    {q : List (String × Nat)} {visited : List String} {vp : List (String × Nat)}
    (inv : BfsInv g facts start ((t, d) :: q) visited vp) (ht : t ∈ visited) :
    BfsInv g facts start q visited vp := by
  obtain ⟨vmap, qwalk, vwalk, sorted, band, vq, clos, kk, si⟩ := inv
  refine ⟨vmap, ?_, vwalk, sorted.of_cons, ?_, ?_, ?_, ?_, ?_⟩
  · intro x dx hx; exact qwalk x dx (List.mem_cons_of_mem _ hx)
  · intro x hx y hy
    exact band x (List.mem_cons_of_mem _ hx) y (List.mem_cons_of_mem _ hy)
  · intro v dv hv x dx hx; exact vq v dv hv x dx (List.mem_cons_of_mem _ hx)
  · intro v dv hv w hw
    obtain ⟨hwf, hrest⟩ := clos v dv hv w hw
    refine ⟨hwf, ?_⟩
    rcases hrest with hvp | ⟨dw, hdw, hle⟩
    · exact Or.inl hvp
    · rcases List.mem_cons.mp hdw with heq | hmem
      · have hw : w = t := congrArg Prod.fst heq
        have hdweq : dw = d := congrArg Prod.snd heq
        obtain ⟨dvt, hvpt⟩ := mem_vp_of_visited vmap ht
        have hdvt : dvt ≤ d := kk t d (List.mem_cons_self _ _) dvt hvpt
        exact Or.inl ⟨dvt, by rw [hw]; exact hvpt, by omega⟩
      · exact Or.inr ⟨dw, hmem, hle⟩
  · intro x dx hx dv hv; exact kk x dx (List.mem_cons_of_mem _ hx) dv hv
  · rcases si with hs | ⟨d0, hd0⟩
    · exact Or.inl hs
    · rcases List.mem_cons.mp hd0 with heq | hmem
      · have hst : start = t := congrArg Prod.fst heq
        exact Or.inl (by rw [hst]; exact ht)
      · exact Or.inr ⟨d0, hmem⟩

lemma mem_newEntries {g : Conn} {t : String} {visited : List String} {d : Nat}
    {x : String} {dx : Nat} :
    (x, dx) ∈ ((nbrs g t).filter (fun n => n ∉ (t :: visited))).map
        (fun n => (n, d + 1)) ↔
      x ∈ nbrs g t ∧ x ∉ (t :: visited) ∧ dx = d + 1 := by
  simp only [List.mem_map, List.mem_filter, decide_eq_true_eq, Prod.mk.injEq]
  constructor
  · rintro ⟨n, ⟨hn, hnv⟩, rfl, rfl⟩
    exact ⟨hn, hnv, rfl⟩
  · rintro ⟨hn, hnv, rfl⟩
    exact ⟨x, ⟨hn, hnv⟩, rfl, rfl⟩

lemma bfsInv_expand {g : Conn} {facts : List String} {start t : String} {d : Nat}
    {q : List (String × Nat)} {visited : List String} {vp : List (String × Nat)}
    (inv : BfsInv g facts start ((t, d) :: q) visited vp) (ht : t ∉ visited)
    (hnf : ¬ (nbrs g t).any (fun n => n ∈ facts) = true) :
    BfsInv g facts start
      (q ++ ((nbrs g t).filter (fun n => n ∉ (t :: visited))).map (fun n => (n, d + 1)))
      (t :: visited) ((t, d) :: vp) := by
  obtain ⟨vmap, qwalk, vwalk, sorted, band, vq, clos, kk, si⟩ := inv
  have hnofact : ∀ n ∈ nbrs g t, n ∉ facts := by
    intro n hn hcon
    exact hnf (List.any_eq_true.mpr ⟨n, hn, by simpa⟩)
  have hhead := qwalk t d (List.mem_cons_self _ _)
  have hsorted_head : ∀ y ∈ q, d ≤ y.2 := by
    intro y hy
    exact (List.pairwise_cons.mp sorted).1 y hy
  refine ⟨by simp [vmap], ?_, ?_, ?_, ?_, ?_, ?_, ?_, ?_⟩
  · -- qwalk
    intro x dx hx
    rcases List.mem_append.mp hx with hold | hnew
    · exact qwalk x dx (List.mem_cons_of_mem _ hold)
    · obtain ⟨hxn, _, rfl⟩ := mem_newEntries.mp hnew
      exact ⟨walk_snoc hhead.1 hxn, hnofact x hxn⟩
  · -- vwalk
    intro v dv hv
    rcases List.mem_cons.mp hv with heq | hmem
    · have h1 : v = t := congrArg Prod.fst heq
      have h2 : dv = d := congrArg Prod.snd heq
      rw [h1, h2]; exact hhead
    · exact vwalk v dv hmem
  · -- sorted
    rw [List.pairwise_append]
    refine ⟨sorted.of_cons, ?_, ?_⟩
    · rw [List.pairwise_map]
      exact List.pairwise_of_forall_mem_list (fun a _ b _ => le_refl _)
    · intro a ha b hb
      obtain ⟨b1, b2⟩ := b
      obtain ⟨_, _, rfl⟩ := mem_newEntries.mp hb
      have := band (t, d) (List.mem_cons_self _ _) a (List.mem_cons_of_mem _ ha)
      simpa using this
  · -- band
    intro x hx y hy
    rcases List.mem_append.mp hx with hxold | hxnew
    · rcases List.mem_append.mp hy with hyold | hynew
      · exact band x (List.mem_cons_of_mem _ hxold) y (List.mem_cons_of_mem _ hyold)
      · obtain ⟨y1, y2⟩ := y
        obtain ⟨_, _, rfl⟩ := mem_newEntries.mp hynew
        have := hsorted_head x hxold
        simp only
        omega
    · obtain ⟨x1, x2⟩ := x
      obtain ⟨_, _, rfl⟩ := mem_newEntries.mp hxnew
      rcases List.mem_append.mp hy with hyold | hynew
      · have := band (t, d) (List.mem_cons_self _ _) y (List.mem_cons_of_mem _ hyold)
        simp only at this ⊢
        omega
      · obtain ⟨y1, y2⟩ := y
        obtain ⟨_, _, rfl⟩ := mem_newEntries.mp hynew
        simp only
        omega
  · -- vq
    intro v dv hv x dx hx
    rcases List.mem_cons.mp hv with heq | hvold
    · have h2 : dv = d := congrArg Prod.snd heq
      rcases List.mem_append.mp hx with hxold | hxnew
      · have := hsorted_head (x, dx) hxold
        simp only at this
        omega
      · obtain ⟨_, _, hdx⟩ := mem_newEntries.mp hxnew
        omega
    · rcases List.mem_append.mp hx with hxold | hxnew
      · exact vq v dv hvold x dx (List.mem_cons_of_mem _ hxold)
      · obtain ⟨_, _, hdx⟩ := mem_newEntries.mp hxnew
        have := vq v dv hvold t d (List.mem_cons_self _ _)
        omega
  · -- clos
    intro v dv hv w hw
    rcases List.mem_cons.mp hv with heq | hvold
    · have h1 : v = t := congrArg Prod.fst heq
      have h2 : dv = d := congrArg Prod.snd heq
      rw [h1] at hw
      refine ⟨hnofact w hw, ?_⟩
      by_cases hwtv : w ∈ (t :: visited)
      · rcases List.mem_cons.mp hwtv with rfl | hwv
        · exact Or.inl ⟨d, List.mem_cons_self _ _, by omega⟩
        · obtain ⟨dw, hdw⟩ := mem_vp_of_visited vmap hwv
          have : dw ≤ d := vq w dw hdw t d (List.mem_cons_self _ _)
          exact Or.inl ⟨dw, List.mem_cons_of_mem _ hdw, by omega⟩
      · refine Or.inr ⟨d + 1, ?_, by omega⟩
        exact List.mem_append_right _ (mem_newEntries.mpr ⟨hw, hwtv, rfl⟩)
    · obtain ⟨hwf, hrest⟩ := clos v dv hvold w hw
      refine ⟨hwf, ?_⟩
      rcases hrest with ⟨dw, hdw, hle⟩ | ⟨dw, hdw, hle⟩
      · exact Or.inl ⟨dw, List.mem_cons_of_mem _ hdw, hle⟩
      · rcases List.mem_cons.mp hdw with heqh | hmem
        · have hw1 : w = t := congrArg Prod.fst heqh
          have hw2 : dw = d := congrArg Prod.snd heqh
          exact Or.inl ⟨d, by rw [hw1]; exact List.mem_cons_self _ _, by omega⟩
        · exact Or.inr ⟨dw, List.mem_append_left _ hmem, hle⟩
  · -- kk
    intro x dx hx dv hv
    rcases List.mem_cons.mp hv with heq | hvold
    · have h1 : x = t := congrArg Prod.fst heq
      have h2 : dv = d := congrArg Prod.snd heq
      rcases List.mem_append.mp hx with hxold | hxnew
      · have := hsorted_head (x, dx) hxold
        simp only at this
        omega
      · obtain ⟨_, hxtv, _⟩ := mem_newEntries.mp hxnew
        exact absurd (by rw [h1]; exact List.mem_cons_self _ _ : x ∈ t :: visited) hxtv
    · rcases List.mem_append.mp hx with hxold | hxnew
      · exact kk x dx (List.mem_cons_of_mem _ hxold) dv hvold
      · obtain ⟨_, hxtv, _⟩ := mem_newEntries.mp hxnew
        have : x ∈ visited := visited_of_mem_vp vmap hvold
        exact absurd (List.mem_cons_of_mem _ this) hxtv
  · -- si
    rcases si with hs | ⟨d0, hd0⟩
    · exact Or.inl (List.mem_cons_of_mem _ hs)
    · rcases List.mem_cons.mp hd0 with heq | hmem
      · have hst : start = t := congrArg Prod.fst heq
        exact Or.inl (by rw [hst]; exact List.mem_cons_self _ _)
      · exact Or.inr ⟨d0, List.mem_append_left _ hmem⟩

/-- Every fact-walk covered by the queue or the visited records can be lifted
to one covered by an unvisited queue entry, with no worse total length. -/
lemma bfs_lift {g : Conn} {facts : List String} {start : String}
    {q : List (String × Nat)} {visited : List String} {vp : List (String × Nat)}
    (inv : BfsInv g facts start q visited vp) :
    ∀ m y dy, WalkAF g facts y m → ((y, dy) ∈ q ∨ (y, dy) ∈ vp) →
      ∃ z dz m', (z, dz) ∈ q ∧ z ∉ visited ∧ WalkAF g facts z m' ∧
        dz + m' ≤ dy + m := by
  intro m
  induction m using Nat.strong_induction_on with
  | _ m ih =>
  have core : ∀ y dy, WalkAF g facts y m → (y, dy) ∈ vp →
      ∃ z dz m', (z, dz) ∈ q ∧ z ∉ visited ∧ WalkAF g facts z m' ∧
        dz + m' ≤ dy + m := by
    intro y dy waf hyvp
    cases waf with
    | hit hya hb hbf => exact absurd hbf ((inv.clos y dy hyvp _ hb).1)
    | @cons a b n hya hb wb =>
      obtain ⟨_, hrest⟩ := inv.clos y dy hyvp b hb
      rcases hrest with ⟨dw, hdw, hle⟩ | ⟨dw, hdw, hle⟩
      · obtain ⟨z, dz, m', hzq, hzv, hzw, hzle⟩ := ih n (by omega) b dw wb (Or.inr hdw)
        exact ⟨z, dz, m', hzq, hzv, hzw, by omega⟩
      · obtain ⟨z, dz, m', hzq, hzv, hzw, hzle⟩ := ih n (by omega) b dw wb (Or.inl hdw)
        exact ⟨z, dz, m', hzq, hzv, hzw, by omega⟩
  intro y dy waf hmem
  rcases hmem with hyq | hyvp
  · by_cases hyv : y ∈ visited
    · obtain ⟨dv, hdv⟩ := mem_vp_of_visited inv.vmap hyv
      have hdvle : dv ≤ dy := inv.kk y dy hyq dv hdv
      obtain ⟨z, dz, m', hzq, hzv, hzw, hzle⟩ := core y dv waf hdv
      exact ⟨z, dz, m', hzq, hzv, hzw, by omega⟩
    · exact ⟨y, dy, m, hyq, hyv, waf, le_refl _⟩
  · exact core y dy waf hyvp

/-- Minimality half of the BFS: a returned value is no larger than the total
length of any covered fact-walk. -/
lemma bfs_le {g : Conn} {facts : List String} {start : String} :
    ∀ (fuel : Nat) (q : List (String × Nat)) (visited : List String)
      (vp : List (String × Nat)), BfsInv g facts start q visited vp →
      ∀ n, (∃ y dy m, ((y, dy) ∈ q ∨ (y, dy) ∈ vp) ∧ WalkAF g facts y m ∧ dy + m ≤ n) →
      ∀ r, bfsLoop g facts fuel q visited = some r → r ≤ n := by
  intro fuel
  induction fuel with
  | zero =>
    intro q visited vp _ n _ r hr
    simp [bfsLoop] at hr
  | succ fuel ih =>
    intro q visited vp inv n hcov r hr
    obtain ⟨y, dy, m, hmem, hw, hle⟩ := hcov
    rcases q with _ | ⟨⟨t, d⟩, q'⟩
    · obtain ⟨z, dz, m', hzq, _, _, _⟩ := bfs_lift inv m y dy hw hmem
      simp at hzq
    · rw [bfsLoop] at hr
      by_cases htv : t ∈ visited
      · rw [if_pos htv] at hr
        refine ih q' visited vp (bfsInv_skip inv htv) n ?_ r hr
        rcases hmem with hyq | hyvp
        · rcases List.mem_cons.mp hyq with heq | hmemq
          · have h1 : y = t := congrArg Prod.fst heq
            have h2 : dy = d := congrArg Prod.snd heq
            rw [h1] at hw
            obtain ⟨dv, hdv⟩ := mem_vp_of_visited inv.vmap htv
            have hdvle : dv ≤ d := inv.kk t d (List.mem_cons_self _ _) dv hdv
            exact ⟨t, dv, m, Or.inr hdv, hw, by omega⟩
          · exact ⟨y, dy, m, Or.inl hmemq, hw, hle⟩
        · exact ⟨y, dy, m, Or.inr hyvp, hw, hle⟩
      · rw [if_neg htv] at hr
        by_cases hfact : (nbrs g t).any (fun x => x ∈ facts) = true
        · rw [if_pos hfact] at hr
          obtain ⟨z, dz, m', hzq, hzv, hzw, hzle⟩ := bfs_lift inv m y dy hw hmem
          have hm' : 1 ≤ m' := hzw.one_le
          have hd_le_dz : d ≤ dz := by
            rcases List.mem_cons.mp hzq with heq | hmemq
            · have : dz = d := congrArg Prod.snd heq
              omega
            · exact (List.pairwise_cons.mp inv.sorted).1 (z, dz) hmemq
          have : r = d + 1 := by
            injection hr with h
            omega
          omega
        · rw [if_neg hfact] at hr
          refine ih _ _ _ (bfsInv_expand inv htv hfact) n ?_ r hr
          rcases hmem with hyq | hyvp
          · rcases List.mem_cons.mp hyq with heq | hmemq
            · have h1 : y = t := congrArg Prod.fst heq
              have h2 : dy = d := congrArg Prod.snd heq
              exact ⟨t, d, m, Or.inr (List.mem_cons_self _ _), h1 ▸ hw, by omega⟩
            · exact ⟨y, dy, m, Or.inl (List.mem_append_left _ hmemq), hw, hle⟩
          · exact ⟨y, dy, m, Or.inr (List.mem_cons_of_mem _ hyvp), hw, hle⟩

/-- When the queue empties, the visited set is closed under adjacency and no
fact is reachable from the start. -/
lemma bfs_empty_unreachable {g : Conn} {facts : List String} {start : String}
    {visited : List String} {vp : List (String × Nat)}
    (inv : BfsInv g facts start [] visited vp) :
    ∀ n, ¬ ReachesFact g facts start n := by
  have hstart : start ∈ visited := by
    rcases inv.si with h | ⟨d0, h⟩
    · exact h
    · simp at h
  have hclosed : ∀ nn x, Walk g start x nn → ∃ dx, (x, dx) ∈ vp := by
    intro nn
    induction nn with
    | zero =>
      intro x w
      cases walk_zero w
      exact mem_vp_of_visited inv.vmap hstart
    | succ k ihk =>
      intro x w
      obtain ⟨b, wb, hx⟩ := walk_last_step w
      obtain ⟨db, hdb⟩ := ihk b wb
      obtain ⟨_, hrest⟩ := inv.clos b db hdb x hx
      rcases hrest with ⟨dx, hdx, _⟩ | ⟨dx, hdx, _⟩
      · exact ⟨dx, hdx⟩
      · simp at hdx
  rintro n ⟨f, hff, wf⟩
  obtain ⟨df, hdf⟩ := hclosed n f wf
  exact (inv.vwalk f df hdf).2 hff

/-- Soundness: a returned value is realized by a fact-walk, unless the queue
emptied, in which case the value is the sentinel and no fact is reachable. -/
lemma bfs_sound {g : Conn} {facts : List String} {start : String} :
    ∀ (fuel : Nat) (q : List (String × Nat)) (visited : List String)
      (vp : List (String × Nat)), BfsInv g facts start q visited vp →
      ∀ r, bfsLoop g facts fuel q visited = some r →
      (∃ f, f ∈ facts ∧ Walk g start f r) ∨
        (r = 999 ∧ ∀ n, ¬ ReachesFact g facts start n) := by
  intro fuel
  induction fuel with
  | zero =>
    intro q visited vp _ r hr
    simp [bfsLoop] at hr
  | succ fuel ih =>
    intro q visited vp inv r hr
    rcases q with _ | ⟨⟨t, d⟩, q'⟩
    · rw [bfsLoop] at hr
      injection hr with h
      exact Or.inr ⟨h.symm, bfs_empty_unreachable inv⟩
    · rw [bfsLoop] at hr
      by_cases htv : t ∈ visited
      · rw [if_pos htv] at hr
        exact ih q' visited vp (bfsInv_skip inv htv) r hr
      · rw [if_neg htv] at hr
        by_cases hfact : (nbrs g t).any (fun x => x ∈ facts) = true
        · rw [if_pos hfact] at hr
          injection hr with h
          obtain ⟨b, hb, hbf⟩ := List.any_eq_true.mp hfact
          have hwt := (inv.qwalk t d (List.mem_cons_self _ _)).1
          exact Or.inl ⟨b, by simpa using hbf, h ▸ walk_snoc hwt hb⟩
        · rw [if_neg hfact] at hr
          exact ih _ _ _ (bfsInv_expand inv htv hfact) r hr

lemma lookup_snd_mem {g : Conn} {t : String} {l : List String}
    (h : g.lookup t = some l) : l ∈ g.map Prod.snd := by
  induction g with
  | nil => simp [List.lookup] at h
  | cons p rest ih =>
    rw [List.lookup] at h
    cases hbe : (t == p.1) with
    | true =>
      rw [hbe] at h
      injection h with h
      exact h ▸ List.mem_map.mpr ⟨p, List.mem_cons_self _ _, rfl⟩
    | false =>
      rw [hbe] at h
      exact List.mem_cons_of_mem _ (ih h)

lemma mem_universe_of_nbrs {g : Conn} {start t x : String}
    (hx : x ∈ nbrs g t) : x ∈ bfsUniverse g start := by
  unfold nbrs at hx
  rcases hl : g.lookup t with _ | l
  · rw [hl] at hx; simp at hx
  · rw [hl] at hx
    exact List.mem_cons_of_mem _
      (List.mem_flatten.mpr ⟨l, lookup_snd_mem hl, hx⟩)

/-- Decreasing measure for termination of the BFS loop. -/
def bfsPhi (g : Conn) (start : String) (q : List (String × Nat))
    (visited : List String) : Nat :=
  q.length +
    ∑ x ∈ ((bfsUniverse g start).dedup.toFinset \ visited.toFinset),
      (1 + (nbrs g x).length)

lemma bfs_terminates {g : Conn} {facts : List String} {start : String} :
    ∀ (fuel : Nat) (q : List (String × Nat)) (visited : List String),
      (∀ x dx, (x, dx) ∈ q → x ∈ bfsUniverse g start) →
      bfsPhi g start q visited < fuel →
      bfsLoop g facts fuel q visited ≠ none := by
  intro fuel
  induction fuel with
  | zero => intro q visited _ hphi; omega
  | succ fuel ih =>
    intro q visited hq hphi
    rcases q with _ | ⟨⟨t, d⟩, q'⟩
    · rw [bfsLoop]; simp
    · rw [bfsLoop]
      by_cases htv : t ∈ visited
      · rw [if_pos htv]
        refine ih q' visited (fun x dx hx => hq x dx (List.mem_cons_of_mem _ hx)) ?_
        have : bfsPhi g start q' visited + 1 = bfsPhi g start ((t, d) :: q') visited := by
          simp [bfsPhi]; omega
        omega
      · rw [if_neg htv]
        by_cases hfact : (nbrs g t).any (fun x => x ∈ facts) = true
        · rw [if_pos hfact]; simp
        · rw [if_neg hfact]
          set news := ((nbrs g t).filter (fun n => n ∉ (t :: visited))).map
            (fun n => (n, d + 1)) with hnews
          refine ih (q' ++ news) (t :: visited) ?_ ?_
          · intro x dx hx
            rcases List.mem_append.mp hx with hold | hnew
            · exact hq x dx (List.mem_cons_of_mem _ hold)
            · obtain ⟨x1, x2⟩ := (x, dx)
              obtain ⟨hxn, _, _⟩ := mem_newEntries.mp hnew
              exact mem_universe_of_nbrs hxn
          · -- the measure drops by at least two
            have htU : t ∈ (bfsUniverse g start).dedup.toFinset :=
              by
                rw [List.mem_toFinset, List.mem_dedup]
                exact hq t d (List.mem_cons_self _ _)
            have htS : t ∈ ((bfsUniverse g start).dedup.toFinset \ visited.toFinset) := by
              rw [Finset.mem_sdiff]
              exact ⟨htU, by simpa [List.mem_toFinset] using htv⟩
            have hset : ((bfsUniverse g start).dedup.toFinset \ (t :: visited).toFinset) =
                ((bfsUniverse g start).dedup.toFinset \ visited.toFinset).erase t := by
              rw [List.toFinset_cons, Finset.sdiff_insert]
            have hsum :
                (∑ x ∈ ((bfsUniverse g start).dedup.toFinset \ visited.toFinset).erase t,
                  (1 + (nbrs g x).length)) + (1 + (nbrs g t).length) =
                ∑ x ∈ ((bfsUniverse g start).dedup.toFinset \ visited.toFinset),
                  (1 + (nbrs g x).length) :=
              Finset.sum_erase_add _ _ htS
            have hlen : news.length ≤ (nbrs g t).length := by
              rw [hnews, List.length_map]
              exact List.length_filter_le _ _
            simp only [bfsPhi, List.length_cons, List.length_append] at hphi ⊢
            rw [hset]
            omega

/-- The BFS result is stable under extra fuel. -/
lemma bfsLoop_mono {g : Conn} {facts : List String} :
    ∀ (fuel fuel' : Nat) (q : List (String × Nat)) (visited : List String)
      (r : Nat), fuel ≤ fuel' → bfsLoop g facts fuel q visited = some r →
      bfsLoop g facts fuel' q visited = some r := by
  intro fuel
  induction fuel with
  | zero =>
    intro fuel' q visited r _ hr
    simp [bfsLoop] at hr
  | succ fuel ih =>
    intro fuel' q visited r hle hr
    rcases fuel' with _ | fuel''
    · omega
    rcases q with _ | ⟨⟨t, d⟩, q'⟩
    · rw [bfsLoop] at hr ⊢; exact hr
    · rw [bfsLoop] at hr ⊢
      by_cases htv : t ∈ visited
      · rw [if_pos htv] at hr ⊢
        exact ih fuel'' q' visited r (by omega) hr
      · rw [if_neg htv] at hr ⊢
        by_cases hfact : (nbrs g t).any (fun x => x ∈ facts) = true
        · rw [if_pos hfact] at hr ⊢; exact hr
        · rw [if_neg hfact] at hr ⊢
          exact ih fuel'' _ _ r (by omega) hr

lemma bfs_returns (g : Conn) (facts : List String) (t : String) :
    bfsLoop g facts (bfsFuel g t) [(t, 0)] [] ≠ none := by
  apply bfs_terminates
  · intro x dx hx
    rcases List.mem_singleton.mp hx with heq
    have : x = t := congrArg Prod.fst heq
    rw [this]
    exact List.mem_cons_self _ _
  · have hphi : bfsPhi g t [(t, 0)] [] =
        1 + ∑ x ∈ (bfsUniverse g t).dedup.toFinset, (1 + (nbrs g x).length) := by
      simp [bfsPhi]
    have hsum : ∑ x ∈ (bfsUniverse g t).dedup.toFinset, (1 + (nbrs g x).length) =
        ((bfsUniverse g t).dedup.map (fun x => 1 + (nbrs g x).length)).sum :=
      List.sum_toFinset _ (List.nodup_dedup _)
    rw [bfsFuel]
    omega

/-- C3: `calculate_distance_to_facts` returns 0 when the table is in the fact
set; returns the minimal hop count to a member of the fact set when a path
exists; returns the sentinel 999 when no member of the fact set is reachable;
and the BFS terminates: at the fuel `bfsFuel` (a bound of one step per queue
entry, each node entering the queue at most once per stored neighbour link)
the loop returns, and the result is stable under any larger fuel. -/
theorem C3_distance_bfs_correct (g : Conn) (facts : List String) (t : String) :
    (t ∈ facts → ∀ fuel, calculate_distance_to_facts g facts t fuel = some 0)
    ∧ (t ∉ facts → ∀ d, IsMinFactDist g facts t d →
        calculate_distance_to_facts g facts t (bfsFuel g t) = some d)
    ∧ (t ∉ facts → (∀ n, ¬ ReachesFact g facts t n) →
        calculate_distance_to_facts g facts t (bfsFuel g t) = some 999)
    ∧ (∀ fuel, bfsFuel g t ≤ fuel →
        calculate_distance_to_facts g facts t fuel =
          calculate_distance_to_facts g facts t (bfsFuel g t)) := by
  refine ⟨?_, ?_, ?_, ?_⟩
  · intro ht fuel
    rw [calculate_distance_to_facts, if_pos ht]
  · intro ht d hd
    obtain ⟨⟨f, hf, wf⟩, hmin⟩ := hd
    rcases hres : bfsLoop g facts (bfsFuel g t) [(t, 0)] [] with _ | r
    · exact absurd hres (bfs_returns g facts t)
    · obtain ⟨m, hm, waf⟩ := walkAF_of_walk wf hf ht
      have hrle : r ≤ d :=
        bfs_le (bfsFuel g t) [(t, 0)] [] [] (bfsInv_init ht) d
          ⟨t, 0, m, Or.inl (List.mem_singleton.mpr rfl), waf, by omega⟩ r hres
      have hdle : d ≤ r := by
        rcases bfs_sound (bfsFuel g t) [(t, 0)] [] [] (bfsInv_init ht) r hres with
          ⟨f', hf', wf'⟩ | ⟨_, hnone⟩
        · exact hmin r ⟨f', hf', wf'⟩
        · exact absurd ⟨f, hf, wf⟩ (hnone d)
      rw [calculate_distance_to_facts, if_neg ht, hres]
      congr 1
      omega
  · intro ht hnone
    rcases hres : bfsLoop g facts (bfsFuel g t) [(t, 0)] [] with _ | r
    · exact absurd hres (bfs_returns g facts t)
    · rcases bfs_sound (bfsFuel g t) [(t, 0)] [] [] (bfsInv_init ht) r hres with
        ⟨f', hf', wf'⟩ | ⟨hr999, _⟩
      · exact absurd ⟨f', hf', wf'⟩ (hnone r)
      · rw [calculate_distance_to_facts, if_neg ht, hres, hr999]
  · intro fuel hfuel
    by_cases ht : t ∈ facts
    · rw [calculate_distance_to_facts, if_pos ht,
        calculate_distance_to_facts, if_pos ht]
    · rw [calculate_distance_to_facts, if_neg ht,
        calculate_distance_to_facts, if_neg ht]
      rcases hres : bfsLoop g facts (bfsFuel g t) [(t, 0)] [] with _ | r
      · exact absurd hres (bfs_returns g facts t)
      · exact bfsLoop_mono (bfsFuel g t) fuel [(t, 0)] [] r hfuel hres

/-- Witness for C3 on the concrete two-table graph `a — s` with fact set
`{s}`: the theorem's reachable case yields distance 1. -/
theorem C3_distance_bfs_correct_witness :
    calculate_distance_to_facts [("a", ["s"]), ("s", ["a"])] ["s"] "a"
      (bfsFuel [("a", ["s"]), ("s", ["a"])] "a") = some 1 := by
  apply (C3_distance_bfs_correct [("a", ["s"]), ("s", ["a"])] ["s"] "a").2.1
    (by decide) 1
  constructor
  · refine ⟨"s", by decide, Walk.cons (by decide) (Walk.nil _)⟩
  · rintro n ⟨f, hf, w⟩
    cases n with
    | zero =>
      cases walk_zero w
      simp at hf
    | succ k => omega

/-! ## `RelationshipAnalyzer` star-schema detection -/

/-- `get_upstream_connections`: the tables this table connects to. -/
def get_upstream_connections (g : Conn) (t : String) : List String := nbrs g t

/-- `get_downstream_connections`: the set of tables (other than `t`) whose
stored neighbour set contains `t`; a Python set, modelled as the deduplicated
list of such graph keys. -/
def get_downstream_connections (g : Conn) (t : String) : List String :=
  ((g.filter (fun p => t ∈ p.2 ∧ p.1 ≠ t)).map Prod.fst).dedup

/-- `is_star_schema_table`: at least one upstream connection into the fact set
and an empty downstream set. -/
def is_star_schema_table (g : Conn) (facts : List String) (t : String) : Bool :=
  ((get_upstream_connections g t).any (fun x => x ∈ facts)) &&
    ((get_downstream_connections g t).length = 0)

/-- The star-schema test as the spec words it ("... zero 'downstream'
connections (tables that connect *to* this table from outside the fact
set)"): the downstream count ignores tables inside the fact set.  Stated for
comparison with `is_star_schema_table`. -/
def specIsStarSchemaTable (g : Conn) (facts : List String) (t : String) : Bool :=
  ((get_upstream_connections g t).any (fun x => x ∈ facts)) &&
    (((get_downstream_connections g t).filter (fun o => o ∉ facts)).length = 0)

lemma mem_downstream {g : Conn} {t f : String} :
    f ∈ get_downstream_connections g t ↔
      ∃ vs, (f, vs) ∈ g ∧ t ∈ vs ∧ f ≠ t := by
  simp only [get_downstream_connections, List.mem_dedup, List.mem_map,
    List.mem_filter, decide_eq_true_eq, Bool.and_eq_true]
  constructor
  · rintro ⟨⟨k, vs⟩, ⟨hmem, hin, hne⟩, rfl⟩
    exact ⟨vs, hmem, by simpa using hin, by simpa using hne⟩
  · rintro ⟨vs, hmem, hin, hne⟩
    exact ⟨(f, vs), ⟨hmem, by simpa using hin, by simpa using hne⟩, rfl⟩

lemma lookup_mem {g : Conn} {t : String} {l : List String}
    (h : g.lookup t = some l) : (t, l) ∈ g := by
  induction g with
  | nil => simp [List.lookup] at h
  | cons p rest ih =>
    obtain ⟨k, vs⟩ := p
    rw [List.lookup] at h
    cases hbe : (t == k) with
    | true =>
      rw [hbe] at h
      injection h with h
      have ht : t = k := by simpa using hbe
      rw [ht, ← h]
      exact List.mem_cons_self _ _
    | false =>
      rw [hbe] at h
      exact List.mem_cons_of_mem _ (ih h)

/-- C4 (amended): `is_star_schema_table` is true iff the table has a
connection into the fact set and zero downstream connections from any other
table — the code does not exclude the fact set from the downstream check.
Hence, on a symmetric graph, a table connected to a fact other than itself is
never classified as star-schema (the fact itself is downstream). -/
theorem C4_star_schema_code_behavior (g : Conn) (facts : List String) (t : String) :
    (is_star_schema_table g facts t = true ↔
      ((∃ f ∈ facts, f ∈ nbrs g t) ∧ get_downstream_connections g t = []))
    ∧ ((∀ a b : String, b ∈ nbrs g a → a ∈ nbrs g b) →
        ∀ f, f ∈ facts → f ∈ nbrs g t → f ≠ t →
          is_star_schema_table g facts t = false) := by
  constructor
  · rw [is_star_schema_table, Bool.and_eq_true]
    constructor
    · rintro ⟨h1, h2⟩
      constructor
      · obtain ⟨x, hx, hxf⟩ := List.any_eq_true.mp h1
        exact ⟨x, by simpa using hxf, hx⟩
      · exact List.length_eq_zero.mp (of_decide_eq_true h2)
    · rintro ⟨⟨f, hf, hfn⟩, h2⟩
      refine ⟨List.any_eq_true.mpr ⟨f, hfn, by simpa using hf⟩, ?_⟩
      simp [h2]
  · intro hsym f hf hfn hft
    have htf : t ∈ nbrs g f := hsym t f hfn
    have hlf : ∃ l, g.lookup f = some l ∧ t ∈ l := by
      unfold nbrs at htf
      rcases hl : g.lookup f with _ | l
      · rw [hl] at htf; simp at htf
      · rw [hl] at htf; exact ⟨l, rfl, htf⟩
    obtain ⟨l, hl, htl⟩ := hlf
    have hfd : f ∈ get_downstream_connections g t :=
      mem_downstream.mpr ⟨l, lookup_mem hl, htl, hft⟩
    rw [is_star_schema_table]
    have : (get_downstream_connections g t).length ≠ 0 := by
      intro hz
      rw [List.length_eq_zero] at hz
      rw [hz] at hfd
      simp at hfd
    simp [this]

/-- Witness for C4's amended theorem on the two-table graph `date — sales`
with fact set `{sales}`: the symmetric-graph clause applies and the code
returns `false`. -/
theorem C4_star_schema_code_behavior_witness :
    is_star_schema_table [("date", ["sales"]), ("sales", ["date"])] ["sales"]
      "date" = false := by
  have hsym : ∀ a b : String,
      b ∈ nbrs [("date", ["sales"]), ("sales", ["date"])] a →
      a ∈ nbrs [("date", ["sales"]), ("sales", ["date"])] b := by
    intro a b hb
    by_cases ha1 : a = "date"
    · subst ha1
      have hb' : b = "sales" := by simpa [nbrs, List.lookup] using hb
      subst hb'
      decide
    · by_cases ha2 : a = "sales"
      · subst ha2
        have hb' : b = "date" := by simpa [nbrs, List.lookup] using hb
        subst hb'
        decide
      · exfalso
        have e1 : (a == "date") = false := by simpa using ha1
        have e2 : (a == "sales") = false := by simpa using ha2
        have hn : nbrs [("date", ["sales"]), ("sales", ["date"])] a = [] := by
          rw [nbrs]
          simp [List.lookup, e1, e2]
        rw [hn] at hb
        simp at hb
  exact (C4_star_schema_code_behavior
    [("date", ["sales"]), ("sales", ["date"])] ["sales"] "date").2 hsym "sales"
    (by decide) (by decide) (by decide)

/-- C4 counterexample: on the symmetric graph `date — sales` with fact set
`{sales}`, the claim's reading (downstream counted only outside the fact set)
says `date` is a star-schema table, but the code returns `false`. -/
theorem C4_star_schema_counterexample :
    is_star_schema_table [("date", ["sales"]), ("sales", ["date"])] ["sales"]
        "date" = false ∧
      specIsStarSchemaTable [("date", ["sales"]), ("sales", ["date"])] ["sales"]
        "date" = true := by
  constructor <;> decide

/-! ## `RelationshipAnalyzer` extension detection -/

/-- One 1:1 extension candidate of `identify_extension_tables_universal`. -/
structure ExtCand where
  table_a : String
  table_b : String
  strength : Nat
  bidirectional : Bool
  one_cardinality : Bool
  detection_reasons : List String
  relationship_id : String
deriving Repr, DecidableEq

/-- Step 1 of `identify_extension_tables_universal`: a relationship is a
candidate when it is bidirectional or has a `one` cardinality on either end;
strength 3 for both signals, 2 for bidirectional alone, 1 for cardinality
alone. -/
def extensionCandidates (rels : List Rel) : List ExtCand :=
  rels.foldl
    (fun acc r =>
      if r.fromTable = "" ∨ r.toTable = "" then acc
      else
        let isBi := r.crossFilteringBehavior = some "bothDirections"
        let hasOne := r.fromCardinality = some "one" ∨ r.toCardinality = some "one"
        if isBi ∧ hasOne then
          acc ++ [{ table_a := r.fromTable, table_b := r.toTable, strength := 3,
                    bidirectional := true, one_cardinality := true,
                    detection_reasons := ["bidirectional_and_one_cardinality"],
                    relationship_id := r.name }]
        else if isBi then
          acc ++ [{ table_a := r.fromTable, table_b := r.toTable, strength := 2,
                    bidirectional := true, one_cardinality := false,
                    detection_reasons := ["bidirectional_filtering"],
                    relationship_id := r.name }]
        else if hasOne then
          acc ++ [{ table_a := r.fromTable, table_b := r.toTable, strength := 1,
                    bidirectional := false, one_cardinality := true,
                    detection_reasons := ["one_cardinality_only"],
                    relationship_id := r.name }]
        else acc)
    []

/-- The fixed vocabulary of `_determine_extension_by_universal_naming`. -/
def extensionIndicators : List String :=
  ["list", "attribute", "detail", "extended", "profile", "program",
   "portfolio", "category", "type", "option", "meta", "extra",
   "additional", "supplemental", "auxiliary", "secondary", "properties",
   "config", "configuration", "settings", "parameters", "tags",
   "classifications", "hierarchy", "tree", "node", "leaf"]

/-- Composite naming score of `_determine_extension_by_universal_naming`,
scaled by 100 to exact integers (source: indicator count + 0.5 × underscore
count + 0.01 × name length). -/
def extNamingScore (t : String) : Nat :=
  100 * ((extensionIndicators.filter
      (fun ind => strContains (strLower t) ind)).length)
    + 50 * strCountChar t '_' + strLen t

/-- `_determine_extension_by_universal_naming`: the higher composite score is
the extension; ties fall back to alphabetical order (the later name is the
extension).  Returns `(extension, base)`. -/
def determine_extension_by_universal_naming (a b : String) : String × String :=
  if extNamingScore b < extNamingScore a then (a, b)
  else if extNamingScore a < extNamingScore b then (b, a)
  else if strLt b a then (a, b) else (b, a)

/-- `_validate_extension_pattern`: the four confirmation rules. -/
def validate_extension_pattern (ext base : String) (g : Conn) : Bool :=
  if connCount g base < connCount g ext then false
  else if ext ∉ nbrs g base then false
  else if 6 < connCount g ext then false
  else if connCount g base = 0 then false
  else true

/-- The record stored for a confirmed extension. -/
structure ExtInfo where
  base_table : String
  detection_method : List String
  determination_method : String
  connection_count_ext : Nat
  connection_count_base : Nat
  confidence : Nat
  relationship_id : String
deriving Repr, DecidableEq

/-- Python `dict[key] = value`: replace in place if the key is present,
otherwise append. -/
def insertAssoc {β : Type} (l : List (String × β)) (k : String) (v : β) :
    List (String × β) :=
  match l with
  | [] => [(k, v)]
  | (k', v') :: rest =>
    if k' = k then (k', v) :: rest else (k', v') :: insertAssoc rest k v

/-- Steps 2–3 of `identify_extension_tables_universal`: for each candidate the
table with fewer total connections is the extension (ties decided by the
naming heuristic), and the pair is kept only if `_validate_extension_pattern`
accepts it.  The source rebuilds `connections` from the same relationship
list via `build_relationship_graph`; here the graph is the explicit `g`
argument. -/
def identify_extension_tables_universal (rels : List Rel) (g : Conn) :
    List (String × ExtInfo) :=
  (extensionCandidates rels).foldl
    (fun exts c =>
      let ca := connCount g c.table_a
      let cb := connCount g c.table_b
      let eb : String × String × String :=
        if ca < cb then (c.table_a, c.table_b, "fewer_connections")
        else if cb < ca then (c.table_b, c.table_a, "fewer_connections")
        else
          let p := determine_extension_by_universal_naming c.table_a c.table_b
          (p.1, p.2, "naming_heuristics")
      if validate_extension_pattern eb.1 eb.2.1 g then
        insertAssoc exts eb.1
          { base_table := eb.2.1, detection_method := c.detection_reasons,
            determination_method := eb.2.2,
            connection_count_ext := if eb.1 = c.table_a then ca else cb,
            connection_count_base := if eb.1 = c.table_a then cb else ca,
            confidence := c.strength, relationship_id := c.relationship_id }
      else exts)
    []

lemma insertAssoc_forall {β : Type} {P : String → β → Prop}
    {l : List (String × β)} (hl : ∀ k v, (k, v) ∈ l → P k v)
    {k0 : String} {v0 : β} (h0 : P k0 v0) :
    ∀ k v, (k, v) ∈ insertAssoc l k0 v0 → P k v := by
  induction l with
  | nil =>
    intro k v hkv
    rw [insertAssoc] at hkv
    rcases List.mem_singleton.mp hkv with heq
    have h1 : k = k0 := congrArg Prod.fst heq
    have h2 : v = v0 := congrArg Prod.snd heq
    rw [h1, h2]; exact h0
  | cons p rest ih =>
    intro k v hkv
    rw [insertAssoc] at hkv
    by_cases hk : p.1 = k0
    · rw [if_pos hk] at hkv
      rcases List.mem_cons.mp hkv with heq | hmem
      · have h1 : k = p.1 := congrArg Prod.fst heq
        have h2 : v = v0 := congrArg Prod.snd heq
        rw [h1, h2, hk]; exact h0
      · exact hl k v (List.mem_cons_of_mem _ hmem)
    · rw [if_neg hk] at hkv
      rcases List.mem_cons.mp hkv with heq | hmem
      · have h1 : k = p.1 := congrArg Prod.fst heq
        have h2 : v = p.2 := congrArg Prod.snd heq
        rw [h1, h2]
        exact hl p.1 p.2 (List.mem_cons_self _ _)
      · exact ih (fun k v hm => hl k v (List.mem_cons_of_mem _ hm)) k v hmem

/-- C5: every confirmed extension pair satisfies the four validation
postconditions — the extension's connection count is at most the base's, the
extension is directly connected to the base, the extension has at most 6
connections, and the base has at least 1 connection. -/
theorem C5_confirmed_extensions_validated (rels : List Rel) (g : Conn) :
    ∀ e info, (e, info) ∈ identify_extension_tables_universal rels g →
      connCount g e ≤ connCount g info.base_table ∧
      e ∈ nbrs g info.base_table ∧
      connCount g e ≤ 6 ∧
      1 ≤ connCount g info.base_table := by
  rw [identify_extension_tables_universal]
  generalize extensionCandidates rels = cands
  have step : ∀ (cands : List ExtCand) (acc : List (String × ExtInfo)),
      (∀ e info, (e, info) ∈ acc →
        connCount g e ≤ connCount g info.base_table ∧
        e ∈ nbrs g info.base_table ∧
        connCount g e ≤ 6 ∧ 1 ≤ connCount g info.base_table) →
      ∀ e info, (e, info) ∈ cands.foldl
        (fun exts c =>
          let ca := connCount g c.table_a
          let cb := connCount g c.table_b
          let eb : String × String × String :=
            if ca < cb then (c.table_a, c.table_b, "fewer_connections")
            else if cb < ca then (c.table_b, c.table_a, "fewer_connections")
            else
              let p := determine_extension_by_universal_naming c.table_a c.table_b
              (p.1, p.2, "naming_heuristics")
          if validate_extension_pattern eb.1 eb.2.1 g then
            insertAssoc exts eb.1
              { base_table := eb.2.1, detection_method := c.detection_reasons,
                determination_method := eb.2.2,
                connection_count_ext := if eb.1 = c.table_a then ca else cb,
                connection_count_base := if eb.1 = c.table_a then cb else ca,
                confidence := c.strength, relationship_id := c.relationship_id }
          else exts) acc →
        connCount g e ≤ connCount g info.base_table ∧
        e ∈ nbrs g info.base_table ∧
        connCount g e ≤ 6 ∧ 1 ≤ connCount g info.base_table := by
    intro cands
    induction cands with
    | nil => intro acc hacc e info hmem; exact hacc e info hmem
    | cons c rest ih =>
      intro acc hacc e info hmem
      rw [List.foldl_cons] at hmem
      refine ih _ ?_ e info hmem
      set eb : String × String × String :=
        if connCount g c.table_a < connCount g c.table_b then
          (c.table_a, c.table_b, "fewer_connections")
        else if connCount g c.table_b < connCount g c.table_a then
          (c.table_b, c.table_a, "fewer_connections")
        else
          let p := determine_extension_by_universal_naming c.table_a c.table_b
          (p.1, p.2, "naming_heuristics") with heb
      by_cases hval : validate_extension_pattern eb.1 eb.2.1 g = true
      · simp only [hval, if_true]
        apply insertAssoc_forall hacc
        show connCount g eb.1 ≤ connCount g eb.2.1 ∧ eb.1 ∈ nbrs g eb.2.1 ∧
          connCount g eb.1 ≤ 6 ∧ 1 ≤ connCount g eb.2.1
        rw [validate_extension_pattern] at hval
        by_cases h1 : connCount g eb.2.1 < connCount g eb.1
        · rw [if_pos h1] at hval; exact absurd hval (by simp)
        · rw [if_neg h1] at hval
          by_cases h2 : eb.1 ∉ nbrs g eb.2.1
          · rw [if_pos h2] at hval; exact absurd hval (by simp)
          · rw [if_neg h2] at hval
            by_cases h3 : 6 < connCount g eb.1
            · rw [if_pos h3] at hval; exact absurd hval (by simp)
            · rw [if_neg h3] at hval
              by_cases h4 : connCount g eb.2.1 = 0
              · rw [if_pos h4] at hval; exact absurd hval (by simp)
              · exact ⟨by omega, by simpa using h2, by omega, by omega⟩
      · simp only [hval, if_false]
        exact hacc
  intro e info hmem
  exact step cands [] (by intro e info h; simp at h) e info hmem

/-- Witness for C5: on the concrete model of spec Scenario B
(`product — productcategory` 1:1 with `product` also linked to `sales`),
`productcategory` is confirmed as an extension of `product` and the four
postconditions hold. -/
theorem C5_confirmed_extensions_validated_witness :
    connCount [("product", ["sales", "productcategory"]),
        ("productcategory", ["product"]), ("sales", ["product"])]
        "productcategory" ≤
      connCount [("product", ["sales", "productcategory"]),
        ("productcategory", ["product"]), ("sales", ["product"])] "product" ∧
    "productcategory" ∈ nbrs [("product", ["sales", "productcategory"]),
        ("productcategory", ["product"]), ("sales", ["product"])] "product" ∧
    connCount [("product", ["sales", "productcategory"]),
        ("productcategory", ["product"]), ("sales", ["product"])]
        "productcategory" ≤ 6 ∧
    1 ≤ connCount [("product", ["sales", "productcategory"]),
        ("productcategory", ["product"]), ("sales", ["product"])] "product" := by
  have h := C5_confirmed_extensions_validated
    [{ name := "r1", fromTable := "productcategory", toTable := "product",
       fromCardinality := some "one",
       crossFilteringBehavior := some "bothDirections" }]
    [("product", ["sales", "productcategory"]),
     ("productcategory", ["product"]), ("sales", ["product"])]
    "productcategory"
    { base_table := "product",
      detection_method := ["bidirectional_and_one_cardinality"],
      determination_method := "fewer_connections",
      connection_count_ext := 1, connection_count_base := 2,
      confidence := 3, relationship_id := "r1" }
    (by decide)
  exact h

/-! ## `TableCategorizer`

The TMDL file content consulted per table (auto-date markers, hidden flags,
parameter metadata, calculation-group markers, regular/calculated column
counts) is one of the engine's inputs — the spec lists these per-table
structural hints among the inputs "supplied as a side lookup".  `TmdlHints`
records, per table, the boolean outcome of each content check the source
performs on the table's TMDL file. -/

structure TmdlHints where
  /-- The per-table TMDL file was found and readable. -/
  tmdlFound : Bool := false
  /-- An auto-date annotation, or hidden + date-hierarchy + Calendar source. -/
  autoDateContent : Bool := false
  /-- `ParameterMetadata`, `isHidden = true` or `type = Parameter` present. -/
  paramContent : Bool := false
  /-- `calculationGroup` present. -/
  calcGroupContent : Bool := false
  /-- `ParameterMetadata`, `calculationGroup` or `isHidden = true` present. -/
  specialContent : Bool := false
  /-- At most one regular column; with zero regular columns, has measures. -/
  metricsContentOk : Bool := false
deriving Repr, DecidableEq

/-- `identify_auto_date_tables`: Power BI auto date/time tables, by naming
convention or by TMDL content markers. -/
def identify_auto_date_tables (h : String → TmdlHints) (names : List String) :
    List String :=
  names.foldl
    (fun acc t =>
      if strStarts (strLower t) "datetabletemplate_" ∨
          strStarts (strLower t) "localdatetable_" then acc ++ [t]
      else if (h t).tmdlFound ∧ (h t).autoDateContent then acc ++ [t]
      else acc)
    []

/-- `identify_parameter_tables`: by universal naming pattern (or a leading
dot), else by TMDL parameter metadata. -/
def identify_parameter_tables (h : String → TmdlHints) (names : List String) :
    List String :=
  names.foldl
    (fun acc t =>
      if strStarts t "." ∨ containsAny (strLower t)
          ["param", "parameter", "config", "setting", "option", "preference",
           "variable", "constant", "lookup", "reference", "master",
           "código", "parametro", "configuración"] then acc ++ [t]
      else if (h t).tmdlFound ∧ (h t).paramContent then acc ++ [t]
      else acc)
    []

/-- `identify_calculation_groups`: by the TMDL `calculationGroup` marker. -/
def identify_calculation_groups (h : String → TmdlHints) (names : List String) :
    List String :=
  names.foldl
    (fun acc t =>
      if (h t).tmdlFound ∧ (h t).calcGroupContent then acc ++ [t] else acc)
    []

/-- `identify_metrics_tables`: zero connections, a readable TMDL file whose
column profile qualifies, and a metrics naming signal. -/
def identify_metrics_tables (h : String → TmdlHints) (g : Conn)
    (names : List String) : List String :=
  names.foldl
    (fun acc t =>
      if connCount g t ≠ 0 then acc
      else if ¬ (h t).tmdlFound then acc
      else if ¬ (h t).metricsContentOk then acc
      else
        let naming :=
          if startsAny t ["_", ".", "*", "-", "#"] ∧
              strContains (strLower t) "measure" then true
          else if containsAny (strLower t) ["metric", "measure", "kpi", "score"]
            then true
          else false
        if naming then acc ++ [t] else acc)
    []

/-- `identify_special_disconnected_tables`: parameter-grid candidates by
naming pattern (or a leading dot), else by TMDL special markers. -/
def identify_special_disconnected_tables (h : String → TmdlHints)
    (names : List String) : List String :=
  names.foldl
    (fun acc t =>
      if strStarts t "." ∨ containsAny (strLower t)
          ["parameter", "config", "setting", "lookup", "reference", "master",
           "static", "constant", "readonly", "system"] then acc ++ [t]
      else if (h t).tmdlFound ∧ (h t).specialContent then acc ++ [t]
      else acc)
    []

/-- `identify_calendar_connected_specials`: tables connected exclusively to
calendar tables. -/
def identify_calendar_connected_specials (g : Conn) (names cals : List String)
    (excluded : List String) : List String :=
  names.foldl
    (fun acc t =>
      if t ∈ excluded then acc
      else
        let tc := nbrs g t
        if 0 < (tc.filter (fun x => x ∈ cals)).length ∧
            (tc.filter (fun x => x ∉ cals)).length = 0 then acc ++ [t]
        else acc)
    []

/-- The result record of `calculate_table_score`. -/
structure ScoreResult where
  table_name : String
  fact_score : Int
  dim_score : Int
  connection_count : Nat
  is_calendar : Bool
  classification : String
deriving Repr, DecidableEq

/-- `calculate_table_score`: hybrid naming/connection scoring and the
priority-ordered classification rules. -/
def calculate_table_score (h : String → TmdlHints) (g : Conn) (t : String) :
    ScoreResult :=
  let lo := strLower t
  let cc := connCount g t
  if t ∈ identify_special_disconnected_tables h [t] then
    { table_name := t, fact_score := 0, dim_score := 0, connection_count := cc,
      is_calendar := false, classification := "disconnected" }
  else
    let factName : Int :=
      (if containsAny lo ["fact_", "_fact", "fact ", " fact"] then 25 else 0) +
        (if containsAny lo
            ["fact", "trans", "event", "activity", "record", "log", "history",
             "operation", "process", "action", "movement", "entry", "line",
             "detail", "item", "occurrence", "instance", "measure"]
          then 15 else 0)
    let dimName : Int :=
      (if containsAny lo
          ["dim", "dimension", "master", "lookup", "reference", "category",
           "type", "class", "group", "entity", "object", "subject"]
        then 25 else 0) +
        (if startsAny lo ["d_", "dim_", "dim-", "dim ", "master_", "ref_", "lookup_"]
          then 20 else 0)
    let isCal := containsAny lo ["calendar", "date", "time", "period"]
    let connScore : Int :=
      if 5 ≤ cc then 15 else if 3 ≤ cc then 10 else if 2 ≤ cc then 5
      else if cc = 1 then -3 else -5
    let totalFact := factName + max 0 connScore
    let totalDim := dimName + max 0 (-connScore)
    if containsAny lo ["fact_", "_fact", "fact ", " fact"] then
      { table_name := t, fact_score := max totalFact (totalDim + 50),
        dim_score := totalDim, connection_count := cc, is_calendar := isCal,
        classification := "fact" }
    else if startsAny lo ["dim_", "dim-", "dim ", "d_"] then
      { table_name := t, fact_score := totalFact,
        dim_score := max totalDim (totalFact + 10), connection_count := cc,
        is_calendar := isCal, classification := "dimension" }
    else if 3 ≤ cc then
      { table_name := t, fact_score := totalFact + 20, dim_score := totalDim,
        connection_count := cc, is_calendar := isCal, classification := "fact" }
    else
      let tf := if 0 < totalFact ∧ 2 ≤ cc then totalFact + 5 else totalFact
      { table_name := t, fact_score := tf, dim_score := totalDim,
        connection_count := cc, is_calendar := isCal,
        classification := if totalDim < tf then "fact" else "dimension" }

/-- Stable insertion preserving earlier elements that `keep` ahead of `x`. -/
def insertKeep {α : Type} (keep : α → α → Bool) (x : α) : List α → List α
  | [] => [x]
  | y :: ys => if keep y x then y :: insertKeep keep x ys else x :: y :: ys

/-- A stable sort (models Python's stable `list.sort`): `keep y x` decides
that an earlier `y` stays ahead of `x`. -/
def stableSortBy {α : Type} (keep : α → α → Bool) (l : List α) : List α :=
  l.foldl (fun acc x => insertKeep keep x acc) []

/-- The value stored for a confirmed dimension extension: the 6-tuple built by
`find_dimension_extensions`. -/
structure DimExtInfo where
  base_table : String
  rtype : String
  base_level : Nat
  ext_level : Nat
  confidence : Nat
  detection_method : List String
deriving Repr, DecidableEq

/-- The level-mapping lookup of `find_dimension_extensions` (later levels
overwrite earlier ones; absent tables default to level 1). -/
def levelOf (_l1 l2 l3 l4 : List String) (t : String) : Nat :=
  if t ∈ l4 then 4 else if t ∈ l3 then 3 else if t ∈ l2 then 2 else 1

/-- `find_dimension_extensions`: keep the universal extensions whose two ends
are both dimension tables, with their levels. -/
def find_dimension_extensions (rels : List Rel) (g : Conn)
    (l1 l2 l3 l4 : List String) : List (String × DimExtInfo) :=
  let allDims := l1 ++ l2 ++ l3 ++ l4
  (identify_extension_tables_universal rels g).foldl
    (fun acc p =>
      if p.1 ∈ allDims ∧ p.2.base_table ∈ allDims then
        acc ++ [(p.1,
          { base_table := p.2.base_table, rtype := "extension",
            base_level := levelOf l1 l2 l3 l4 p.2.base_table,
            ext_level := levelOf l1 l2 l3 l4 p.1,
            confidence := p.2.confidence,
            detection_method := p.2.detection_method })]
      else acc)
    []

/-- State of the Phase-3 classification loop of `categorize_tables`. -/
structure P3State where
  l1 : List String
  l2 : List String
  l3 : List String
  l4 : List String
  cal : List String
  param : List String
  disc : List String
  processed : List String
deriving Repr, DecidableEq

/-- One iteration of the Phase-3 loop of `categorize_tables`. -/
def phase3Step (g : Conn) (facts mets special : List String)
    (s : P3State) (t : String) : P3State :=
  if t ∈ s.processed then s
  else if containsAny (strLower t) ["calendar", "date", "time", "period"] then
    { s with cal := s.cal ++ [t], processed := s.processed ++ [t] }
  else if t ∈ mets then s
  else if t ∈ special then
    { s with param := s.param ++ [t], processed := s.processed ++ [t] }
  else if connCount g t = 0 then
    { s with disc := s.disc ++ [t], processed := s.processed ++ [t] }
  else if is_star_schema_table g facts t then
    { s with l1 := s.l1 ++ [t], processed := s.processed ++ [t] }
  else
    let dist := distanceToFacts g facts t
    if dist = 1 then { s with l1 := s.l1 ++ [t], processed := s.processed ++ [t] }
    else if dist = 2 then { s with l2 := s.l2 ++ [t], processed := s.processed ++ [t] }
    else if dist = 3 then { s with l3 := s.l3 ++ [t], processed := s.processed ++ [t] }
    else if 4 ≤ dist then { s with l4 := s.l4 ++ [t], processed := s.processed ++ [t] }
    else { s with l1 := s.l1 ++ [t], processed := s.processed ++ [t] }

/-- The four dimension-level lists mutated by Phase 4. -/
structure DimLists where
  l1 : List String
  l2 : List String
  l3 : List String
  l4 : List String
deriving Repr, DecidableEq

/-- The Phase-4 removal pass: take the extension out of every level list. -/
def removeFromAllLevels (e : String) (s : DimLists) : DimLists :=
  { l1 := s.l1.erase e, l2 := s.l2.erase e, l3 := s.l3.erase e,
    l4 := s.l4.erase e }

/-- One Phase-4 repositioning: remove the extension from all level lists,
then append it one level further out than its base — defaulting to L2 when
the base is not found in L1/L2/L3 (in particular when the base sits in
L4+). -/
def repositionExtension (s : DimLists) (e base : String) : DimLists :=
  let s' := removeFromAllLevels e s
  if base ∈ s'.l1 then { s' with l2 := s'.l2 ++ [e] }
  else if base ∈ s'.l2 then { s' with l3 := s'.l3 ++ [e] }
  else if base ∈ s'.l3 then { s' with l4 := s'.l4 ++ [e] }
  else { s' with l2 := s'.l2 ++ [e] }

/-- The categorization returned by `categorize_tables`. -/
structure Categorization where
  fact_tables : List String
  l1_dimensions : List String
  l2_dimensions : List String
  l3_dimensions : List String
  l4_plus_dimensions : List String
  calendar_tables : List String
  metrics_tables : List String
  parameter_tables : List String
  calculation_groups : List String
  disconnected_tables : List String
  dimension_tables : List String
  dimension_extensions : List (String × DimExtInfo)
  auto_date_tables : List String
deriving Repr, DecidableEq

/-- Phase 0 of `categorize_tables`: the input table list with the auto-date
tables filtered out. -/
def catNames (h : String → TmdlHints) (tableNames0 : List String) :
    List String :=
  tableNames0.filter (fun t => t ∉ identify_auto_date_tables h tableNames0)

/-- Phase 2 of `categorize_tables`: tables classified as facts by hybrid
scoring, skipping Phase-1 specials and disconnected tables. -/
def catFactsScored (h : String → TmdlHints) (g : Conn)
    (tableNames0 : List String) : List String :=
  (catNames h tableNames0).foldl
    (fun acc t =>
      if t ∈ identify_parameter_tables h (catNames h tableNames0) ∨
          t ∈ identify_calculation_groups h (catNames h tableNames0) ∨
          t ∈ identify_metrics_tables h g (catNames h tableNames0) then acc
      else if connCount g t = 0 then acc
      else if (calculate_table_score h g t).classification = "fact" then
        acc ++ [t]
      else acc)
    []

/-- Phase 2 of `categorize_tables` with its connection-count fallback: when
scoring finds no fact, the ten most-connected non-special tables with at
least 2 connections become the facts. -/
def catFacts (h : String → TmdlHints) (g : Conn) (tableNames0 : List String) :
    List String :=
  if catFactsScored h g tableNames0 = [] then
    (((stableSortBy (fun y x => x.2 ≤ y.2)
        (((catNames h tableNames0).filter
          (fun t => t ∉ identify_parameter_tables h (catNames h tableNames0) ∧
            t ∉ identify_calculation_groups h (catNames h tableNames0) ∧
            t ∉ identify_metrics_tables h g (catNames h tableNames0))).map
            (fun t => (t, connCount g t)))).take 10).foldl
      (fun acc p => if 2 ≤ p.2 then acc ++ [p.1] else acc) [])
  else catFactsScored h g tableNames0

/-- Phase 3 of `categorize_tables`: the classification loop over all tables,
starting from the Phase-1 results. -/
def catP3 (h : String → TmdlHints) (g : Conn) (tableNames0 : List String) :
    P3State :=
  (catNames h tableNames0).foldl
    (phase3Step g (catFacts h g tableNames0)
      (identify_metrics_tables h g (catNames h tableNames0))
      (identify_special_disconnected_tables h (catNames h tableNames0)))
    { l1 := [], l2 := [], l3 := [], l4 := [], cal := [],
      param := identify_parameter_tables h (catNames h tableNames0),
      disc := [],
      processed := identify_parameter_tables h (catNames h tableNames0) ++
        identify_calculation_groups h (catNames h tableNames0) ++
        identify_metrics_tables h g (catNames h tableNames0) ++
        catFacts h g tableNames0 }

/-- Phase 4 of `categorize_tables`: the confirmed dimension extensions. -/
def catDimExts (h : String → TmdlHints) (rels : List Rel) (g : Conn)
    (tableNames0 : List String) : List (String × DimExtInfo) :=
  find_dimension_extensions rels g (catP3 h g tableNames0).l1
    (catP3 h g tableNames0).l2 (catP3 h g tableNames0).l3
    (catP3 h g tableNames0).l4

/-- Phase 4 of `categorize_tables`: the dimension level lists after every
confirmed extension has been repositioned. -/
def catDL (h : String → TmdlHints) (rels : List Rel) (g : Conn)
    (tableNames0 : List String) : DimLists :=
  (catDimExts h rels g tableNames0).foldl
    (fun s p =>
      if p.2.rtype = "extension" ∧ p.2.base_table ≠ "" then
        repositionExtension s p.1 p.2.base_table
      else s)
    { l1 := (catP3 h g tableNames0).l1, l2 := (catP3 h g tableNames0).l2,
      l3 := (catP3 h g tableNames0).l3, l4 := (catP3 h g tableNames0).l4 }

/-- The verification list of `categorize_tables` before reconciliation. -/
def catAllCategorized (h : String → TmdlHints) (rels : List Rel) (g : Conn)
    (tableNames0 : List String) : List String :=
  catFacts h g tableNames0 ++ (catDL h rels g tableNames0).l1 ++
    (catDL h rels g tableNames0).l2 ++ (catDL h rels g tableNames0).l3 ++
    (catDL h rels g tableNames0).l4 ++ (catP3 h g tableNames0).cal ++
    identify_metrics_tables h g (catNames h tableNames0) ++
    (catP3 h g tableNames0).param ++
    identify_calculation_groups h (catNames h tableNames0) ++
    (catP3 h g tableNames0).disc

/-- `TableCategorizer.categorize_tables`: the five-phase pipeline.  Phase 0
filters auto-date tables; Phase 1 collects parameter/calculation-group/metrics
tables; Phase 2 scores the remaining connected tables as facts (falling back
to the ten most-connected tables with at least 2 connections); Phase 3 assigns
every unprocessed table to calendar/parameter/disconnected/L1..L4+; Phase 4
repositions confirmed dimension extensions; a final reconciliation adds any
table missing from the verification list to `disconnected_tables`. -/
def categorize_tables (h : String → TmdlHints) (rels : List Rel)
    (tableNames0 : List String) (g : Conn) : Categorization :=
  { fact_tables := catFacts h g tableNames0,
    l1_dimensions := (catDL h rels g tableNames0).l1,
    l2_dimensions := (catDL h rels g tableNames0).l2,
    l3_dimensions := (catDL h rels g tableNames0).l3,
    l4_plus_dimensions := (catDL h rels g tableNames0).l4,
    calendar_tables := (catP3 h g tableNames0).cal,
    metrics_tables := identify_metrics_tables h g (catNames h tableNames0),
    parameter_tables := (catP3 h g tableNames0).param,
    calculation_groups := identify_calculation_groups h (catNames h tableNames0),
    disconnected_tables := (catP3 h g tableNames0).disc ++
      (catNames h tableNames0).filter
        (fun t => t ∉ catAllCategorized h rels g tableNames0),
    dimension_tables := (catDL h rels g tableNames0).l1 ++
      (catDL h rels g tableNames0).l2 ++ (catDL h rels g tableNames0).l3 ++
      (catDL h rels g tableNames0).l4,
    dimension_extensions := catDimExts h rels g tableNames0,
    auto_date_tables := identify_auto_date_tables h tableNames0 }

/-- C2 (amended): every input table that survives the Phase-0 auto-date
filter appears in at least one of the ten buckets of the returned
categorization — either the phases place it, or the reconciliation step adds
it to `disconnected_tables`. -/
theorem C2_categorization_covers (h : String → TmdlHints) (rels : List Rel)
    (tableNames0 : List String) (g : Conn) (t : String)
    (ht : t ∈ tableNames0)
    (hna : t ∉ (categorize_tables h rels tableNames0 g).auto_date_tables) :
    t ∈ (categorize_tables h rels tableNames0 g).fact_tables ∨
    t ∈ (categorize_tables h rels tableNames0 g).l1_dimensions ∨
    t ∈ (categorize_tables h rels tableNames0 g).l2_dimensions ∨
    t ∈ (categorize_tables h rels tableNames0 g).l3_dimensions ∨
    t ∈ (categorize_tables h rels tableNames0 g).l4_plus_dimensions ∨
    t ∈ (categorize_tables h rels tableNames0 g).calendar_tables ∨
    t ∈ (categorize_tables h rels tableNames0 g).metrics_tables ∨
    t ∈ (categorize_tables h rels tableNames0 g).parameter_tables ∨
    t ∈ (categorize_tables h rels tableNames0 g).calculation_groups ∨
    t ∈ (categorize_tables h rels tableNames0 g).disconnected_tables := by
  have hna' : t ∉ identify_auto_date_tables h tableNames0 := hna
  have htn : t ∈ catNames h tableNames0 := by
    rw [catNames, List.mem_filter]
    exact ⟨ht, by simpa using hna'⟩
  by_cases hac : t ∈ catAllCategorized h rels g tableNames0
  · rw [catAllCategorized] at hac
    simp only [List.mem_append] at hac
    rcases hac with
      ((((((((h1 | h2) | h3) | h4) | h5) | h6) | h7) | h8) | h9) | h10
    · exact Or.inl h1
    · exact Or.inr (Or.inl h2)
    · exact Or.inr (Or.inr (Or.inl h3))
    · exact Or.inr (Or.inr (Or.inr (Or.inl h4)))
    · exact Or.inr (Or.inr (Or.inr (Or.inr (Or.inl h5))))
    · exact Or.inr (Or.inr (Or.inr (Or.inr (Or.inr (Or.inl h6)))))
    · exact Or.inr (Or.inr (Or.inr (Or.inr (Or.inr (Or.inr (Or.inl h7))))))
    · exact Or.inr (Or.inr (Or.inr (Or.inr (Or.inr (Or.inr (Or.inr (Or.inl h8)))))))
    · exact Or.inr (Or.inr (Or.inr (Or.inr (Or.inr (Or.inr (Or.inr (Or.inr
        (Or.inl h9))))))))
    · exact Or.inr (Or.inr (Or.inr (Or.inr (Or.inr (Or.inr (Or.inr (Or.inr
        (Or.inr (List.mem_append_left _ h10)))))))))
  · refine Or.inr (Or.inr (Or.inr (Or.inr (Or.inr (Or.inr (Or.inr (Or.inr
      (Or.inr ?_))))))))
    exact List.mem_append_right _ (List.mem_filter.mpr ⟨htn, by simpa using hac⟩)

/-- Witness for C2's amended theorem: the single table `date` with no
relationships is covered (it lands in `calendar_tables`). -/
theorem C2_categorization_covers_witness :
    "date" ∈ (categorize_tables (fun _ => {}) [] ["date"] []).fact_tables ∨
    "date" ∈ (categorize_tables (fun _ => {}) [] ["date"] []).l1_dimensions ∨
    "date" ∈ (categorize_tables (fun _ => {}) [] ["date"] []).l2_dimensions ∨
    "date" ∈ (categorize_tables (fun _ => {}) [] ["date"] []).l3_dimensions ∨
    "date" ∈ (categorize_tables (fun _ => {}) [] ["date"] []).l4_plus_dimensions ∨
    "date" ∈ (categorize_tables (fun _ => {}) [] ["date"] []).calendar_tables ∨
    "date" ∈ (categorize_tables (fun _ => {}) [] ["date"] []).metrics_tables ∨
    "date" ∈ (categorize_tables (fun _ => {}) [] ["date"] []).parameter_tables ∨
    "date" ∈ (categorize_tables (fun _ => {}) [] ["date"] []).calculation_groups ∨
    "date" ∈ (categorize_tables (fun _ => {}) [] ["date"] []).disconnected_tables :=
  C2_categorization_covers (fun _ => {}) [] ["date"] [] "date" (by decide)
    (by decide)

/-- C2 counterexample: the disconnected table `lookup_measure` (parameter by
its `lookup` naming token, metrics by its `measure` token plus column
profile) is placed in two buckets at once, refuting the exactly-one-bucket
partition claim. -/
theorem C2_partition_counterexample :
    "lookup_measure" ∈ (categorize_tables
        (fun t => if t = "lookup_measure" then
          { tmdlFound := true, metricsContentOk := true } else {})
        [] ["lookup_measure"] []).parameter_tables ∧
    "lookup_measure" ∈ (categorize_tables
        (fun t => if t = "lookup_measure" then
          { tmdlFound := true, metricsContentOk := true } else {})
        [] ["lookup_measure"] []).metrics_tables ∧
    (categorize_tables
        (fun t => if t = "lookup_measure" then
          { tmdlFound := true, metricsContentOk := true } else {})
        [] ["lookup_measure"] []).auto_date_tables = [] := by
  refine ⟨?_, ?_, ?_⟩ <;> decide

/-- C6 (amended): when an extension is repositioned, it is first erased from
every dimension level list (overriding its Phase-3 level) and then appended
one level further out than wherever its base is found at that moment — L1
base to L2, L2 base to L3, L3 base to L4+, and the L2 default when the base
is in none of L1/L2/L3 (in particular when the base sits in L4+). -/
theorem C6_reposition_step_behavior (s : DimLists) (e base : String) :
    (base ∈ (removeFromAllLevels e s).l1 →
      e ∈ (repositionExtension s e base).l2) ∧
    (base ∉ (removeFromAllLevels e s).l1 → base ∈ (removeFromAllLevels e s).l2 →
      e ∈ (repositionExtension s e base).l3) ∧
    (base ∉ (removeFromAllLevels e s).l1 → base ∉ (removeFromAllLevels e s).l2 →
      base ∈ (removeFromAllLevels e s).l3 →
      e ∈ (repositionExtension s e base).l4) ∧
    (base ∉ (removeFromAllLevels e s).l1 → base ∉ (removeFromAllLevels e s).l2 →
      base ∉ (removeFromAllLevels e s).l3 →
      e ∈ (repositionExtension s e base).l2) ∧
    (s.l1.Nodup → e ∉ (repositionExtension s e base).l1) := by
  refine ⟨?_, ?_, ?_, ?_, ?_⟩
  · intro hb
    rw [repositionExtension]
    simp only [if_pos hb]
    simp
  · intro hb1 hb2
    rw [repositionExtension]
    simp only [if_neg hb1, if_pos hb2]
    simp
  · intro hb1 hb2 hb3
    rw [repositionExtension]
    simp only [if_neg hb1, if_neg hb2, if_pos hb3]
    simp
  · intro hb1 hb2 hb3
    rw [repositionExtension]
    simp only [if_neg hb1, if_neg hb2, if_neg hb3]
    simp
  · intro hnd
    rw [repositionExtension]
    have hout : e ∉ (removeFromAllLevels e s).l1 := hnd.not_mem_erase
    by_cases hb1 : base ∈ (removeFromAllLevels e s).l1
    · simpa [if_pos hb1] using hout
    · simp only [if_neg hb1]
      by_cases hb2 : base ∈ (removeFromAllLevels e s).l2
      · simpa [if_pos hb2] using hout
      · simp only [if_neg hb2]
        by_cases hb3 : base ∈ (removeFromAllLevels e s).l3
        · simpa [if_pos hb3] using hout
        · simpa [if_neg hb3] using hout

/-- Witness for C6's amended theorem: with base `b` in L1 and extension `e`
previously at L1, the step yields `e` in L2 and no longer in L1. -/
theorem C6_reposition_step_behavior_witness :
    "e" ∈ (repositionExtension
      { l1 := ["b", "e"], l2 := [], l3 := [], l4 := [] } "e" "b").l2 ∧
    "e" ∉ (repositionExtension
      { l1 := ["b", "e"], l2 := [], l3 := [], l4 := [] } "e" "b").l1 := by
  constructor
  · exact (C6_reposition_step_behavior
      { l1 := ["b", "e"], l2 := [], l3 := [], l4 := [] } "e" "b").1 (by decide)
  · exact (C6_reposition_step_behavior
      { l1 := ["b", "e"], l2 := [], l3 := [], l4 := [] } "e" "b").2.2.2.2 (by decide)

/-- C6 counterexample: on the six-table chain
`fact_s — dim_a — dim_b — dim_c — dim_d — dim_e` with a one-cardinality
relationship between `dim_d` and `dim_e`, the extension `dim_e` (base
`dim_d`, which sits at L4+) is repositioned into `l2_dimensions` — not one
level further out than its base. -/
theorem C6_extension_level_counterexample :
    ((categorize_tables (fun _ => {})
        [{ name := "r1", fromTable := "fact_s", toTable := "dim_a" },
         { name := "r2", fromTable := "dim_a", toTable := "dim_b" },
         { name := "r3", fromTable := "dim_b", toTable := "dim_c" },
         { name := "r4", fromTable := "dim_c", toTable := "dim_d" },
         { name := "r5", fromTable := "dim_d", toTable := "dim_e",
           toCardinality := some "one" }]
        ["fact_s", "dim_a", "dim_b", "dim_c", "dim_d", "dim_e"]
        (build_relationship_graph
          [{ name := "r1", fromTable := "fact_s", toTable := "dim_a" },
           { name := "r2", fromTable := "dim_a", toTable := "dim_b" },
           { name := "r3", fromTable := "dim_b", toTable := "dim_c" },
           { name := "r4", fromTable := "dim_c", toTable := "dim_d" },
           { name := "r5", fromTable := "dim_d", toTable := "dim_e",
             toCardinality := some "one" }]
          ["fact_s", "dim_a", "dim_b", "dim_c", "dim_d", "dim_e"]))).l2_dimensions
        = ["dim_b", "dim_e"] ∧
    ((categorize_tables (fun _ => {})
        [{ name := "r1", fromTable := "fact_s", toTable := "dim_a" },
         { name := "r2", fromTable := "dim_a", toTable := "dim_b" },
         { name := "r3", fromTable := "dim_b", toTable := "dim_c" },
         { name := "r4", fromTable := "dim_c", toTable := "dim_d" },
         { name := "r5", fromTable := "dim_d", toTable := "dim_e",
           toCardinality := some "one" }]
        ["fact_s", "dim_a", "dim_b", "dim_c", "dim_d", "dim_e"]
        (build_relationship_graph
          [{ name := "r1", fromTable := "fact_s", toTable := "dim_a" },
           { name := "r2", fromTable := "dim_a", toTable := "dim_b" },
           { name := "r3", fromTable := "dim_b", toTable := "dim_c" },
           { name := "r4", fromTable := "dim_c", toTable := "dim_d" },
           { name := "r5", fromTable := "dim_d", toTable := "dim_e",
             toCardinality := some "one" }]
          ["fact_s", "dim_a", "dim_b", "dim_c", "dim_d", "dim_e"]))).l4_plus_dimensions
        = ["dim_d"] ∧
    ((categorize_tables (fun _ => {})
        [{ name := "r1", fromTable := "fact_s", toTable := "dim_a" },
         { name := "r2", fromTable := "dim_a", toTable := "dim_b" },
         { name := "r3", fromTable := "dim_b", toTable := "dim_c" },
         { name := "r4", fromTable := "dim_c", toTable := "dim_d" },
         { name := "r5", fromTable := "dim_d", toTable := "dim_e",
           toCardinality := some "one" }]
        ["fact_s", "dim_a", "dim_b", "dim_c", "dim_d", "dim_e"]
        (build_relationship_graph
          [{ name := "r1", fromTable := "fact_s", toTable := "dim_a" },
           { name := "r2", fromTable := "dim_a", toTable := "dim_b" },
           { name := "r3", fromTable := "dim_b", toTable := "dim_c" },
           { name := "r4", fromTable := "dim_c", toTable := "dim_d" },
           { name := "r5", fromTable := "dim_d", toTable := "dim_e",
             toCardinality := some "one" }]
          ["fact_s", "dim_a", "dim_b", "dim_c", "dim_d", "dim_e"]))).dimension_extensions.lookup
        "dim_e" =
      some ({ base_table := "dim_d", rtype := "extension", base_level := 4,
              ext_level := 4, confidence := 1,
              detection_method := ["one_cardinality_only"] } : DimExtInfo) := by
  refine ⟨?_, ?_, ?_⟩ <;> decide

/-! ## `DimensionOptimizer.place_l2_dimensions_near_l1` -/

/-- Python `min(keys, key=connection count)` over `p :: rest`: the first
element attaining the minimal total connection count. -/
def minByConn (g : Conn) (p : String) (rest : List String) : String :=
  rest.foldl (fun best c => if connCount g c < connCount g best then c else best) p

/-- Phase 1 of `place_l2_dimensions_near_l1`: place a table by its direct L1
connections — a single connected L1 fixes the side; with several, the L1 with
the fewest total connections (the "primary" relationship) fixes the side; no
connected L1 leaves the table unplaced.  State: (left L2s, right L2s, placed). -/
def placeL2Phase1Step (g : Conn) (leftL1 rightL1 : List String)
    (st : List String × List String × List String) (t : String) :
    List String × List String × List String :=
  if t ∈ st.2.2 then st
  else
    match (nbrs g t).filter (fun x => x ∈ leftL1 ∨ x ∈ rightL1) with
    | [] => st
    | [p] =>
      if p ∈ leftL1 then (st.1 ++ [t], st.2.1, st.2.2 ++ [t])
      else if p ∈ rightL1 then (st.1, st.2.1 ++ [t], st.2.2 ++ [t])
      else st
    | p :: rest =>
      if minByConn g p rest ∈ leftL1 then (st.1 ++ [t], st.2.1, st.2.2 ++ [t])
      else if minByConn g p rest ∈ rightL1 then
        (st.1, st.2.1 ++ [t], st.2.2 ++ [t])
      else st

/-- Phase 2 of `place_l2_dimensions_near_l1`: an unplaced table is scored by
its connections to each side's L1s and already-placed L2s; the higher side
wins, and only a tie falls back to balancing (ties to the left). -/
def placeL2Phase2Step (g : Conn) (leftL1 rightL1 : List String)
    (st : List String × List String) (t : String) :
    List String × List String :=
  let lScore := ((leftL1 ++ st.1).filter (fun x => x ∈ nbrs g t)).length
  let rScore := ((rightL1 ++ st.2).filter (fun x => x ∈ nbrs g t)).length
  if rScore < lScore then (st.1 ++ [t], st.2)
  else if lScore < rScore then (st.1, st.2 ++ [t])
  else if st.1.length ≤ st.2.length then (st.1 ++ [t], st.2)
  else (st.1, st.2 ++ [t])

/-- `DimensionOptimizer.place_l2_dimensions_near_l1`: relationship-first
left/right placement of the L2 dimensions. -/
def place_l2_dimensions_near_l1 (l2dims leftL1 rightL1 : List String)
    (g : Conn) : List String × List String :=
  if l2dims = [] then ([], [])
  else
    let st1 := l2dims.foldl (placeL2Phase1Step g leftL1 rightL1) ([], [], [])
    let unplaced := l2dims.filter (fun t => t ∉ st1.2.2)
    unplaced.foldl (placeL2Phase2Step g leftL1 rightL1) (st1.1, st1.2.1)

lemma minByConn_spec (g : Conn) (p : String) (rest : List String) :
    minByConn g p rest ∈ p :: rest ∧
      ∀ q ∈ p :: rest, connCount g (minByConn g p rest) ≤ connCount g q := by
  rw [minByConn]
  induction rest generalizing p with
  | nil =>
    simp
  | cons c cs ih =>
    rw [List.foldl_cons]
    by_cases hlt : connCount g c < connCount g p
    · rw [if_pos hlt]
      obtain ⟨hm, hmin⟩ := ih c
      constructor
      · rcases List.mem_cons.mp hm with heq | hmem
        · rw [heq]; exact List.mem_cons_of_mem _ (List.mem_cons_self _ _)
        · exact List.mem_cons_of_mem _ (List.mem_cons_of_mem _ hmem)
      · intro q hq
        rcases List.mem_cons.mp hq with heq | hmem
        · have hc := hmin c (List.mem_cons_self _ _)
          rw [heq]
          omega
        · exact hmin q hmem
    · rw [if_neg hlt]
      obtain ⟨hm, hmin⟩ := ih p
      constructor
      · rcases List.mem_cons.mp hm with heq | hmem
        · rw [heq]; exact List.mem_cons_self _ _
        · exact List.mem_cons_of_mem _ (List.mem_cons_of_mem _ hmem)
      · intro q hq
        rcases List.mem_cons.mp hq with heq | hmem
        · rw [heq]; exact hmin p (List.mem_cons_self _ _)
        · rcases List.mem_cons.mp hmem with heq2 | hmem2
          · have hp := hmin p (List.mem_cons_self _ _)
            rw [heq2]
            omega
          · exact hmin q (List.mem_cons_of_mem _ hmem2)

/-- C9 (amended): the per-table placement rules of
`place_l2_dimensions_near_l1`.  Phase 1: a table with exactly one connection
into the L1 level inherits that parent's side; with several, the side of a
connected parent with the fewest total connections.  Phase 2 (tables with no
L1 connection): the table is scored by its connections to each side's L1s
and already-placed L2s and joins the higher-scoring side; only on a tie does
it fall back to whichever side currently holds fewer tables (ties to the
left) — it is not placed by balance alone, as the claim stated. -/
theorem C9_place_l2_rules (g : Conn) (leftL1 rightL1 : List String)
    (st1 : List String × List String × List String)
    (st2 : List String × List String) (t p : String) (rest : List String) :
    (t ∉ st1.2.2 →
      (nbrs g t).filter (fun x => x ∈ leftL1 ∨ x ∈ rightL1) = [p] →
      ((p ∈ leftL1 →
          t ∈ (placeL2Phase1Step g leftL1 rightL1 st1 t).1) ∧
        (p ∉ leftL1 → p ∈ rightL1 →
          t ∈ (placeL2Phase1Step g leftL1 rightL1 st1 t).2.1))) ∧
    (t ∉ st1.2.2 →
      (nbrs g t).filter (fun x => x ∈ leftL1 ∨ x ∈ rightL1) = p :: rest →
      rest ≠ [] →
      (minByConn g p rest ∈ p :: rest ∧
        (∀ q ∈ p :: rest, connCount g (minByConn g p rest) ≤ connCount g q) ∧
        (minByConn g p rest ∈ leftL1 →
          t ∈ (placeL2Phase1Step g leftL1 rightL1 st1 t).1) ∧
        (minByConn g p rest ∉ leftL1 → minByConn g p rest ∈ rightL1 →
          t ∈ (placeL2Phase1Step g leftL1 rightL1 st1 t).2.1))) ∧
    (((rightL1 ++ st2.2).filter (fun x => x ∈ nbrs g t)).length <
        ((leftL1 ++ st2.1).filter (fun x => x ∈ nbrs g t)).length →
      t ∈ (placeL2Phase2Step g leftL1 rightL1 st2 t).1) ∧
    (((leftL1 ++ st2.1).filter (fun x => x ∈ nbrs g t)).length <
        ((rightL1 ++ st2.2).filter (fun x => x ∈ nbrs g t)).length →
      t ∈ (placeL2Phase2Step g leftL1 rightL1 st2 t).2) ∧
    (((leftL1 ++ st2.1).filter (fun x => x ∈ nbrs g t)).length =
        ((rightL1 ++ st2.2).filter (fun x => x ∈ nbrs g t)).length →
      ((st2.1.length ≤ st2.2.length →
          t ∈ (placeL2Phase2Step g leftL1 rightL1 st2 t).1) ∧
        (st2.2.length < st2.1.length →
          t ∈ (placeL2Phase2Step g leftL1 rightL1 st2 t).2))) := by
  refine ⟨?_, ?_, ?_, ?_, ?_⟩
  · intro hnp hconn
    rw [placeL2Phase1Step, if_neg hnp, hconn]
    constructor
    · intro hl
      simp [if_pos hl]
    · intro hnl hr
      simp [if_neg hnl, if_pos hr]
  · intro hnp hconn hrest
    refine ⟨(minByConn_spec g p rest).1, (minByConn_spec g p rest).2, ?_, ?_⟩
    · intro hl
      rw [placeL2Phase1Step, if_neg hnp, hconn]
      rcases rest with _ | ⟨r, rs⟩
      · exact absurd rfl hrest
      · simp [if_pos hl]
    · intro hnl hr
      rw [placeL2Phase1Step, if_neg hnp, hconn]
      rcases rest with _ | ⟨r, rs⟩
      · exact absurd rfl hrest
      · simp [if_neg hnl, if_pos hr]
  · intro hlt
    rw [placeL2Phase2Step]
    simp only [if_pos hlt]
    simp
  · intro hlt
    rw [placeL2Phase2Step]
    simp only [if_neg (by omega : ¬ ((rightL1 ++ st2.2).filter
      (fun x => x ∈ nbrs g t)).length <
      ((leftL1 ++ st2.1).filter (fun x => x ∈ nbrs g t)).length), if_pos hlt]
    simp
  · intro heq
    rw [placeL2Phase2Step]
    simp only [if_neg (by omega : ¬ ((rightL1 ++ st2.2).filter
      (fun x => x ∈ nbrs g t)).length <
      ((leftL1 ++ st2.1).filter (fun x => x ∈ nbrs g t)).length),
      if_neg (by omega : ¬ ((leftL1 ++ st2.1).filter
      (fun x => x ∈ nbrs g t)).length <
      ((rightL1 ++ st2.2).filter (fun x => x ∈ nbrs g t)).length)]
    constructor
    · intro hbal
      simp [if_pos hbal]
    · intro hbal
      simp [if_neg (by omega : ¬ st2.1.length ≤ st2.2.length)]

/-- Witness for C9's amended theorem: `a2` has the single L1 connection `p`
(on the left) and is placed left; an unplaced `b2` scoring 1 left vs 0 right
is placed left by score. -/
theorem C9_place_l2_rules_witness :
    "a2" ∈ (placeL2Phase1Step
      [("a2", ["p", "b2"]), ("b2", ["a2"]), ("p", ["a2"]), ("q", [])]
      ["p"] ["q"] ([], [], []) "a2").1 ∧
    "b2" ∈ (placeL2Phase2Step
      [("a2", ["p", "b2"]), ("b2", ["a2"]), ("p", ["a2"]), ("q", [])]
      ["p"] ["q"] (["a2"], []) "b2").1 := by
  constructor
  · exact ((C9_place_l2_rules
      [("a2", ["p", "b2"]), ("b2", ["a2"]), ("p", ["a2"]), ("q", [])]
      ["p"] ["q"] ([], [], []) (["a2"], []) "a2" "p" []).1
      (by decide) (by decide)).1 (by decide)
  · exact (C9_place_l2_rules
      [("a2", ["p", "b2"]), ("b2", ["a2"]), ("p", ["a2"]), ("q", [])]
      ["p"] ["q"] ([], [], []) (["a2"], []) "b2" "p" []).2.2.1 (by decide)

/-- C9 counterexample: `b2` has no connection into the L1 level `{p, q}`,
the left side currently holds more tables than the right, yet the code
places `b2` on the left (it scores `b2`'s connection to the already-placed
left L2 `a2` before ever consulting the balance fallback); the claim's
balance rule would place it on the right. -/
theorem C9_no_parent_balance_counterexample :
    place_l2_dimensions_near_l1 ["a2", "b2"] ["p"] ["q"]
      [("a2", ["p", "b2"]), ("b2", ["a2"]), ("p", ["a2"]), ("q", [])] =
      (["a2", "b2"], []) ∧
    (nbrs [("a2", ["p", "b2"]), ("b2", ["a2"]), ("p", ["a2"]), ("q", [])]
      "b2").filter (fun x => x ∈ ["p"] ∨ x ∈ ["q"]) = [] := by
  constructor <;> decide

/-! ## `UniversalChainAlignment` -/

/-- The stack dictionary: ordered association list from stack name to its
ordered table list. -/
abbrev Stacks := List (String × List String)

/-- `all_stacks.get(key, [])`. -/
def stackGet (s : Stacks) (k : String) : List String := (s.lookup k).getD []

/-- One chain family as `_trace_complete_chain_family` builds it. -/
structure ChainFamily where
  name : String
  chain : List String
  all_tables : List String
  start_table : String
  levels_spanned : Nat
deriving Repr, DecidableEq

/-- Python `set.add` on an insertion-ordered list. -/
def addSet (l : List String) (x : String) : List String :=
  if x ∈ l then l else l ++ [x]

/-- Python `set.update` on an insertion-ordered list. -/
def addSetMany (l : List String) (xs : List String) : List String :=
  xs.foldl addSet l

/-- `_find_extension_tables`: other same-level tables linked to the base. -/
def find_extension_tables (base : String) (levelTables : List String)
    (g : Conn) : List String :=
  levelTables.foldl
    (fun acc t =>
      if t ≠ base ∧ (base ∈ nbrs g t ∨ t ∈ nbrs g base) then acc ++ [t]
      else acc)
    []

/-- The level-descending loop of `_trace_complete_chain_family`: at each next
level take the first stored connection into it (Python `list(set)[0]`), fold
that level's extension tables into the family, and stop at the first level
with no connection. -/
def traceChainLoop (g : Conn) :
    List (List String) → String → List String → List String →
      List String × List String
  | [], _, chain, fam => (chain, fam)
  | nl :: rest, current, chain, fam =>
    match (nbrs g current).filter (fun x => x ∈ nl) with
    | [] => (chain, fam)
    | nxt :: _ =>
      traceChainLoop g rest nxt (chain ++ [nxt])
        (addSetMany (addSet fam nxt) (find_extension_tables nxt nl g))

/-- `_trace_complete_chain_family`: trace from the start table down
L3 → L2 → L1 → facts; a family needs a chain of at least 2 levels. -/
def trace_complete_chain_family (g : Conn) (l3s l2s l1s facts : List String)
    (start : String) : Option ChainFamily :=
  let idx : Option Nat :=
    if start ∈ l3s then some 0
    else if start ∈ l2s then some 1
    else if start ∈ l1s then some 2
    else if start ∈ facts then some 3
    else none
  match idx with
  | none => none
  | some i =>
    let r := traceChainLoop g ([l3s, l2s, l1s, facts].drop (i + 1)) start
      [start] [start]
    if 2 ≤ r.1.length then
      some { name := strReplace (strReplace (strReplace start "Dim_" "")
               "Tree" "") "Category" "",
             chain := r.1, all_tables := r.2, start_table := start,
             levels_spanned := r.1.length }
    else none

/-- `_detect_chain_families`: trace a family from every unused L3 table, then
from every unused L2 table. -/
def detect_chain_families (s : Stacks) (g : Conn) : List ChainFamily :=
  let l3s := (stackGet s "left_l3_dimensions" ++
    stackGet s "right_l3_dimensions").dedup
  let l2s := (stackGet s "left_l2_dimensions" ++
    stackGet s "right_l2_dimensions").dedup
  let l1s := (stackGet s "left_l1_dimensions" ++
    stackGet s "right_l1_dimensions").dedup
  let facts := (stackGet s "fact_tables").dedup
  let step := fun (acc : List ChainFamily × List String) (t : String) =>
    if t ∈ acc.2 then acc
    else
      match trace_complete_chain_family g l3s l2s l1s facts t with
      | some fam =>
        if 2 ≤ fam.chain.length then (acc.1 ++ [fam], acc.2 ++ fam.all_tables)
        else acc
      | none => acc
  (l2s.foldl step (l3s.foldl step ([], []))).1

/-- The name-keyed position dictionary of `_organize_stacks_by_families`
(a later family with the same name overwrites the earlier position). -/
def familyPositions (fams : List ChainFamily) : List (String × Nat) :=
  (fams.enum).foldl (fun acc p => insertAssoc acc p.2.name p.1) []

/-- One take of `_organize_stacks_by_families` phase 1: a family table found
in the stack moves from the unassigned pool into the organization with the
family's position. -/
def familyTakeStep (original : List String) (posv : Nat)
    (acc : List (String × Nat) × List String) (t : String) :
    List (String × Nat) × List String :=
  if t ∈ original ∧ t ∈ acc.2 then (acc.1 ++ [(t, posv)], acc.2.erase t)
  else acc

/-- Phase 1 of `_organize_stacks_by_families` for one stack: walk the
families in position order, taking each family member present in the stack
once. -/
def organizePhase1 (fp : List (String × Nat)) (original : List String)
    (sortedFams : List ChainFamily) : List (String × Nat) × List String :=
  sortedFams.foldl
    (fun acc fam =>
      fam.all_tables.foldl
        (familyTakeStep original ((fp.lookup fam.name).getD 0)) acc)
    ([], original)

/-- Phase 2 of `_organize_stacks_by_families` for one stack: append each
remaining table with position `len(families) + len(organization so far)`. -/
def appendUnassigned (nFams : Nat) (acc0 : List (String × Nat))
    (ts : List String) : List (String × Nat) :=
  ts.foldl (fun acc t => acc ++ [(t, nFams + acc.length)]) acc0

/-- `_organize_stacks_by_families` on one stack: family members first (in
family-position order, each taken once from the unassigned pool), then the
remaining tables, then a stable sort by assigned position. -/
def organizeStack (fams : List ChainFamily) (original : List String) :
    List String :=
  let fp := familyPositions fams
  let sortedFams := stableSortBy
    (fun y x => ((fp.lookup y.name).getD 0) ≤ ((fp.lookup x.name).getD 0)) fams
  let st := organizePhase1 fp original sortedFams
  (stableSortBy (fun y x => y.2 ≤ x.2)
    (appendUnassigned fams.length st.1 st.2)).map Prod.fst

/-- `_organize_stacks_by_families` over the whole stack dictionary. -/
def organize_stacks_by_families (s : Stacks) (fams : List ChainFamily) :
    Stacks :=
  s.map (fun p => (p.1, if p.2 = [] then [] else organizeStack fams p.2))

/-- `optimize_universal_stack_alignment`: detect the chain families and
reorganize every stack by them (the verification step after it only logs). -/
def optimize_universal_stack_alignment (s : Stacks) (g : Conn) : Stacks :=
  organize_stacks_by_families s (detect_chain_families s g)

lemma insertKeep_perm {α : Type} (keep : α → α → Bool) (x : α) (l : List α) :
    (insertKeep keep x l).Perm (x :: l) := by
  induction l with
  | nil => rfl
  | cons y ys ih =>
    rw [insertKeep]
    by_cases hk : keep y x = true
    · rw [if_pos hk]
      exact (ih.cons y).trans (List.Perm.swap x y ys)
    · rw [if_neg hk]

lemma stableSortBy_perm {α : Type} (keep : α → α → Bool) (l : List α) :
    (stableSortBy keep l).Perm l := by
  suffices h : ∀ (l acc : List α),
      (l.foldl (fun a x => insertKeep keep x a) acc).Perm (acc ++ l) by
    simpa using h l []
  intro l
  induction l with
  | nil => intro acc; simp
  | cons x xs ih =>
    intro acc
    rw [List.foldl_cons]
    refine (ih (insertKeep keep x acc)).trans ?_
    refine (List.Perm.append_right xs (insertKeep_perm keep x acc)).trans ?_
    exact List.perm_middle.symm.trans (by simp)

lemma familyTake_perm (original : List String) (posv : Nat) :
    ∀ (ts : List String) (acc : List (String × Nat) × List String),
      (((ts.foldl (familyTakeStep original posv) acc)).1.map Prod.fst ++
        ((ts.foldl (familyTakeStep original posv) acc)).2).Perm
        (acc.1.map Prod.fst ++ acc.2) := by
  intro ts
  induction ts with
  | nil => intro acc; exact List.Perm.refl _
  | cons t ts ih =>
    intro acc
    rw [List.foldl_cons]
    refine (ih _).trans ?_
    rw [familyTakeStep]
    by_cases hc : t ∈ original ∧ t ∈ acc.2
    · rw [if_pos hc]
      simp only [List.map_append, List.map_cons, List.map_nil]
      rw [List.append_assoc]
      refine List.Perm.append_left _ ?_
      show ([t] ++ acc.2.erase t).Perm acc.2
      exact (List.perm_cons_erase hc.2).symm
    · rw [if_neg hc]

lemma organizePhase1_perm (fp : List (String × Nat)) (original : List String) :
    ∀ (fams : List ChainFamily),
      ((organizePhase1 fp original fams).1.map Prod.fst ++
        (organizePhase1 fp original fams).2).Perm original := by
  suffices h : ∀ (fams : List ChainFamily)
      (acc : List (String × Nat) × List String),
      ((fams.foldl
        (fun acc fam => fam.all_tables.foldl
          (familyTakeStep original ((fp.lookup fam.name).getD 0)) acc)
        acc).1.map Prod.fst ++
        (fams.foldl
          (fun acc fam => fam.all_tables.foldl
            (familyTakeStep original ((fp.lookup fam.name).getD 0)) acc)
          acc).2).Perm (acc.1.map Prod.fst ++ acc.2) by
    intro fams
    simpa [organizePhase1] using h fams ([], original)
  intro fams
  induction fams with
  | nil => intro acc; exact List.Perm.refl _
  | cons fam fams ih =>
    intro acc
    rw [List.foldl_cons]
    exact (ih _).trans (familyTake_perm original _ fam.all_tables acc)

lemma appendUnassigned_map_fst (nFams : Nat) :
    ∀ (ts : List String) (acc0 : List (String × Nat)),
      (appendUnassigned nFams acc0 ts).map Prod.fst =
        acc0.map Prod.fst ++ ts := by
  intro ts
  induction ts with
  | nil => intro acc0; simp [appendUnassigned]
  | cons t ts ih =>
    intro acc0
    rw [appendUnassigned, List.foldl_cons]
    have := ih (acc0 ++ [(t, nFams + acc0.length)])
    rw [appendUnassigned] at this
    rw [this]
    simp

lemma organizeStack_perm (fams : List ChainFamily) (original : List String) :
    (organizeStack fams original).Perm original := by
  rw [organizeStack]
  refine ((stableSortBy_perm _ _).map Prod.fst).trans ?_
  rw [appendUnassigned_map_fst]
  exact organizePhase1_perm _ original _

/-- C7 (first half as proved): reorganizing the stacks by chain families
yields, for every stack key in order, a permutation of that stack's input
tables; hence the total table count over all stacks is preserved, for every
input stack mapping and connection graph — the post-reorganization count
check can never fire. -/
theorem C7_reorganization_preserves_tables (s : Stacks) (g : Conn) :
    List.Forall₂ (fun a b => a.1 = b.1 ∧ a.2.Perm b.2) s
      (optimize_universal_stack_alignment s g) ∧
    ((optimize_universal_stack_alignment s g).map
      (fun p => p.2.length)).sum = (s.map (fun p => p.2.length)).sum := by
  rw [optimize_universal_stack_alignment]
  generalize detect_chain_families s g = fams
  constructor
  · rw [organize_stacks_by_families]
    induction s with
    | nil => exact List.Forall₂.nil
    | cons p rest ih =>
      rw [List.map_cons]
      refine List.Forall₂.cons ⟨rfl, ?_⟩ ih
      by_cases hp : p.2 = []
      · simp [hp]
      · rw [if_neg hp]
        exact (organizeStack_perm _ _).symm
  · rw [organize_stacks_by_families]
    induction s with
    | nil => rfl
    | cons p rest ih =>
      rw [List.map_cons, List.map_cons, List.map_cons, List.sum_cons,
        List.sum_cons, ih]
      congr 1
      by_cases hp : p.2 = []
      · simp [hp]
      · rw [if_neg hp]
        exact (organizeStack_perm fams p.2).length_eq

/-- C8 (amended): the pipeline is a deterministic function of the table
list, the relationship records AND the stored neighbour order of the
connection graph — identical ordered graphs give identical categorizations
and identical reorganized stacks.  It is NOT a function of the relationship
records alone: the neighbour lists model Python `set` iteration order, which
the counterexample shows to be observable in the output (and which in Python
varies with the process hash seed rather than with the input). -/
theorem C8_determinism_relative_to_set_order (hints : String → TmdlHints)
    (rels : List Rel) (names : List String) (s : Stacks) (g₁ g₂ : Conn)
    (hg : g₁ = g₂) :
    categorize_tables hints rels names g₁ =
        categorize_tables hints rels names g₂ ∧
      optimize_universal_stack_alignment s g₁ =
        optimize_universal_stack_alignment s g₂ := by
  subst hg
  exact ⟨rfl, rfl⟩

/-- Witness for C8 at a concrete input. -/
theorem C8_determinism_relative_to_set_order_witness :
    categorize_tables (fun _ => {}) [] ["date", "sales"]
          [("date", ["sales"]), ("sales", ["date"])] =
        categorize_tables (fun _ => {}) [] ["date", "sales"]
          [("date", ["sales"]), ("sales", ["date"])] ∧
      optimize_universal_stack_alignment [("fact_tables", ["sales"])]
          [("date", ["sales"]), ("sales", ["date"])] =
        optimize_universal_stack_alignment [("fact_tables", ["sales"])]
          [("date", ["sales"]), ("sales", ["date"])] :=
  C8_determinism_relative_to_set_order (fun _ => {}) [] ["date", "sales"]
    [("fact_tables", ["sales"])] [("date", ["sales"]), ("sales", ["date"])]
    [("date", ["sales"]), ("sales", ["date"])] rfl

/-- C8 counterexample: two connection graphs that are equal as string-keyed
dictionaries of SETS (same keys in the same order, each neighbour list a
permutation of the other) on which the chain-alignment reorganization
returns different stack orders: with `x` at L3 linked to both L2 tables `b`
and `c`, the traced chain follows `list(connected_next)[0]` — the first
element of a set iteration — so the family contains `b` in one run and `c`
in the other, and the reorganized `left_l2_dimensions` stack comes out as
`[b, c]` versus `[c, b]`.  A byte-identical input model can therefore yield
different Position lists across runs, refuting the determinism claim. -/
theorem C8_set_order_counterexample :
    ([("x", ["b", "c"]), ("b", ["x"]), ("c", ["x"])] : Conn).map Prod.fst =
        ([("x", ["c", "b"]), ("b", ["x"]), ("c", ["x"])] : Conn).map
          Prod.fst ∧
      (∀ p ∈ ([("x", ["b", "c"]), ("b", ["x"]), ("c", ["x"])] : Conn).zip
          [("x", ["c", "b"]), ("b", ["x"]), ("c", ["x"])],
        p.1.2.Perm p.2.2) ∧
      optimize_universal_stack_alignment
          [("left_l3_dimensions", ["x"]), ("left_l2_dimensions", ["b", "c"])]
          [("x", ["b", "c"]), ("b", ["x"]), ("c", ["x"])] ≠
        optimize_universal_stack_alignment
          [("left_l3_dimensions", ["x"]), ("left_l2_dimensions", ["b", "c"])]
          [("x", ["c", "b"]), ("b", ["x"]), ("c", ["x"])] := by
  refine ⟨rfl, by decide, by decide⟩

/-! ## `PositionCalculator` and `ChainAwarePositionGenerator` -/

/-- The engine's spacing configuration (`MiddleOutLayoutEngine.__init__`). -/
structure SpacingConfig where
  table_width : Nat
  base_collapsed_height : Nat
  height_per_relationship : Nat
  expanded_height : Nat
  calendar_table_height : Nat
  within_stack_spacing : Nat
  table_grid_height : Nat
  stack_gap : Nat
  calendar_spacing : Nat
  left_margin : Nat
deriving Repr, DecidableEq

/-- The literal `spacing_config` the engine constructs. -/
def engineSpacing : SpacingConfig :=
  { table_width := 200, base_collapsed_height := 104,
    height_per_relationship := 24, expanded_height := 180,
    calendar_table_height := 140, within_stack_spacing := 15,
    table_grid_height := 210, stack_gap := 150, calendar_spacing := 80,
    left_margin := 50 }

/-- One output rectangle record. -/
structure Position where
  nodeIndex : String
  x : Nat
  y : Nat
  width : Nat
  height : Nat
  zIndex : Nat
  category : String
  collapsed : Bool
  connection_count : Nat
deriving Repr, DecidableEq

/-- The categorized-with-splits dictionary `calculate_canvas_positions`
reads (absent keys default to empty lists). -/
structure SplitCategorized where
  l4_plus_dimensions_left : List String := []
  l4_plus_dimensions : List String := []
  l3_dimensions_left : List String := []
  l3_dimensions : List String := []
  l2_dimensions_left : List String := []
  l2_dimensions : List String := []
  l1_dimensions_left : List String := []
  l1_dimensions : List String := []
  calendar_tables : List String := []
  fact_tables : List String := []
  l1_dimensions_right : List String := []
  l2_dimensions_right : List String := []
  l3_dimensions_right : List String := []
  l4_plus_dimensions_right : List String := []
  metrics_tables : List String := []
  parameter_tables : List String := []
  disconnected_tables : List String := []
deriving Repr, DecidableEq

/-- The column keys `calculate_canvas_positions` creates, in order: a column
only when its (split or unsplit) list is non-empty. -/
def canvasStacksNeeded (c : SplitCategorized) : List String :=
  (if c.l4_plus_dimensions_left ≠ [] ∨ c.l4_plus_dimensions ≠ [] then
    ["l4_plus_left"] else []) ++
  (if c.l3_dimensions_left ≠ [] ∨ c.l3_dimensions ≠ [] then ["l3_left"]
    else []) ++
  (if c.l2_dimensions_left ≠ [] ∨ c.l2_dimensions ≠ [] then ["l2_left"]
    else []) ++
  (if c.l1_dimensions_left ≠ [] ∨ c.l1_dimensions ≠ [] then ["l1_left"]
    else []) ++
  (if c.calendar_tables ≠ [] ∨ c.fact_tables ≠ [] then ["center"] else []) ++
  (if c.l1_dimensions_right ≠ [] ∨ c.l1_dimensions ≠ [] then ["l1_right"]
    else []) ++
  (if c.l2_dimensions_right ≠ [] ∨ c.l2_dimensions ≠ [] then ["l2_right"]
    else []) ++
  (if c.l3_dimensions_right ≠ [] ∨ c.l3_dimensions ≠ [] then ["l3_right"]
    else []) ++
  (if c.l4_plus_dimensions_right ≠ [] ∨ c.l4_plus_dimensions ≠ [] then
    ["l4_plus_right"] else []) ++
  (if c.metrics_tables ≠ [] then ["metrics"] else []) ++
  (if c.parameter_tables ≠ [] ∨ c.disconnected_tables ≠ [] then
    ["parameters"] else [])

/-- The x-assignment loop of `calculate_canvas_positions`: compact spacing
for (or just before) the metrics/parameters columns, the standard stack gap
otherwise. -/
def assignX (cfg : SpacingConfig) : List String → Nat → List (String × Nat)
  | [], _ => []
  | st :: rest, x =>
    let gap :=
      if st = "metrics" ∨ st = "parameters" then cfg.table_width + 100
      else
        match rest with
        | next :: _ =>
          if next = "metrics" ∨ next = "parameters" then cfg.table_width + 100
          else cfg.table_width + cfg.stack_gap
        | [] => cfg.table_width + cfg.stack_gap
    (st, x) :: assignX cfg rest (x + gap)

/-- `PositionCalculator.calculate_canvas_positions` (the canvas width only
appears in its signature). -/
def calculate_canvas_positions (cfg : SpacingConfig) (c : SplitCategorized)
    (_canvasWidth : Nat) : List (String × Nat) :=
  assignX cfg (canvasStacksNeeded c) cfg.left_margin

/-- The generator's `stack_x_mapping`. -/
def stackXMapping (s : String) : Option String :=
  if s = "left_l4_dimensions" then some "l4_plus_left"
  else if s = "left_l3_dimensions" then some "l3_left"
  else if s = "left_l2_dimensions" then some "l2_left"
  else if s = "left_l1_dimensions" then some "l1_left"
  else if s = "fact_tables" then some "center"
  else if s = "right_l1_dimensions" then some "l1_right"
  else if s = "right_l2_dimensions" then some "l2_right"
  else if s = "right_l3_dimensions" then some "l3_right"
  else if s = "right_l4_dimensions" then some "l4_plus_right"
  else none

/-- The `while gap_position in used` scan of the gap-filling phase: the first
free slot at or after `start` (enough probes to clear every blocked value). -/
def nextFreeGap (used : List Nat) (start : Nat) : Nat :=
  (List.range (used.length + 1)).foldl
    (fun cur _ => if cur ∈ used then cur + 1 else cur) start

/-- `_generate_dimension_stack_positions`: tables locked by the alignment map
first, at their locked slots, then the rest filling free slots; all expanded
height, not collapsed, category derived from the stack name.  (In the
repository the alignment attributes `_reserved_positions` and
`_current_alignment_map` are never assigned, so the engine always runs this
with an empty alignment map.) -/
def generate_dimension_stack_positions (cfg : SpacingConfig)
    (aMap : List (String × Nat)) (tables : List String) (xPos : Nat)
    (stackName : String) (g : Conn) : List Position :=
  let reserved := tables.foldl
    (fun acc t =>
      match aMap.lookup t with
      | some p => acc ++ [(t, p)]
      | none => acc)
    []
  let nonReserved := tables.filter (fun t => (aMap.lookup t).isNone)
  let sortedRes := stableSortBy (fun y x => y.2 ≤ x.2) reserved
  let ph1 := sortedRes.foldl
    (fun (acc : List Position × List Nat) p =>
      let q : Position :=
        { nodeIndex := p.1, x := xPos,
          y := 150 + p.2 * (cfg.expanded_height + cfg.within_stack_spacing),
          width := cfg.table_width, height := cfg.expanded_height,
          zIndex := acc.1.length,
          category := strReplace stackName "_dimensions" "_dimension",
          collapsed := false, connection_count := connCount g p.1 }
      (acc.1 ++ [q], acc.2 ++ [p.2]))
    ([], [])
  let ph2 := nonReserved.foldl
    (fun (acc : List Position × List Nat × Nat) t =>
      let gp := nextFreeGap acc.2.1 acc.2.2
      let q : Position :=
        { nodeIndex := t, x := xPos,
          y := 150 + gp * (cfg.expanded_height + cfg.within_stack_spacing),
          width := cfg.table_width, height := cfg.expanded_height,
          zIndex := acc.1.length,
          category := strReplace stackName "_dimensions" "_dimension",
          collapsed := false, connection_count := connCount g t }
      (acc.1 ++ [q], acc.2.1 ++ [gp], gp + 1))
    (ph1.1, ph1.2, 0)
  ph2.1

/-- `_generate_center_positions`: calendar-connected specials at the top,
then the calendar tables (both at calendar height, collapsed), then the fact
tables (expanded); the fact section restarts at y = 150 when there is no
calendar table. -/
def generate_center_positions (cfg : SpacingConfig) (facts : List String)
    (centerX : Nat) (g : Conn) (specials cals : List String) :
    List Position :=
  let st1 := specials.foldl
    (fun (acc : List Position × Nat) t =>
      let q : Position :=
        { nodeIndex := t, x := centerX, y := acc.2,
          width := cfg.table_width, height := cfg.calendar_table_height,
          zIndex := acc.1.length, category := "calendar_connected_special",
          collapsed := true, connection_count := connCount g t }
      (acc.1 ++ [q],
       acc.2 + cfg.calendar_table_height + cfg.within_stack_spacing))
    ([], 50)
  let y1 := if specials ≠ [] then st1.2 + 20 else st1.2
  let st2 := cals.foldl
    (fun (acc : List Position × Nat) t =>
      let q : Position :=
        { nodeIndex := t, x := centerX, y := acc.2,
          width := cfg.table_width, height := cfg.calendar_table_height,
          zIndex := acc.1.length, category := "calendar", collapsed := true,
          connection_count := connCount g t }
      (acc.1 ++ [q],
       acc.2 + cfg.calendar_table_height + cfg.within_stack_spacing))
    (st1.1, y1)
  let y2 := if cals ≠ [] then st2.2 + cfg.calendar_spacing else 150
  let st3 := facts.foldl
    (fun (acc : List Position × Nat) t =>
      let q : Position :=
        { nodeIndex := t, x := centerX, y := acc.2,
          width := cfg.table_width, height := cfg.expanded_height,
          zIndex := acc.1.length, category := "fact", collapsed := false,
          connection_count := connCount g t }
      (acc.1 ++ [q],
       acc.2 + cfg.expanded_height + cfg.within_stack_spacing))
    (st2.1, y2)
  st3.1

/-- `_generate_parameter_grid_positions`: a fixed-spacing grid, 4 columns
above 4 tables, one column per table otherwise. -/
def generate_parameter_grid_positions (cfg : SpacingConfig)
    (tables : List String) (startX startY : Nat) (g : Conn) :
    List Position :=
  let gridCols := if tables.length ≤ 4 then tables.length else 4
  (tables.enum).foldl
    (fun (acc : List Position) p =>
      let q : Position :=
        { nodeIndex := p.2, x := startX + (p.1 % gridCols) * 220,
          y := startY + (p.1 / gridCols) * 190, width := cfg.table_width,
          height := cfg.expanded_height, zIndex := acc.length,
          category := "parameter_grid", collapsed := false,
          connection_count := connCount g p.2 }
      acc ++ [q])
    []

/-- `_add_additional_table_positions`: the metrics column (expanded height)
and the parameter grid of parameter, disconnected and calculation-group
tables — each only when its column key was mapped. -/
def add_additional_table_positions (cfg : SpacingConfig)
    (pm : List (String × Nat)) (mets params disc calcs : List String)
    (g : Conn) : List Position :=
  let metsPart :=
    match pm.lookup "metrics" with
    | some x =>
      if mets ≠ [] then
        (mets.foldl
          (fun (acc : List Position × Nat) t =>
            let q : Position :=
              { nodeIndex := t, x := x, y := acc.2,
                width := cfg.table_width, height := cfg.expanded_height,
                zIndex := acc.1.length, category := "metrics",
                collapsed := false, connection_count := connCount g t }
            (acc.1 ++ [q],
             acc.2 + cfg.expanded_height + cfg.within_stack_spacing))
          ([], 150)).1
      else []
    | none => []
  let gridPart :=
    match pm.lookup "parameters" with
    | some x =>
      if params ≠ [] ∨ disc ≠ [] ∨ calcs ≠ [] then
        if params ++ disc ++ calcs ≠ [] then
          generate_parameter_grid_positions cfg (params ++ disc ++ calcs) x 50 g
        else []
      else []
    | none => []
  metsPart ++ gridPart

/-- `generate_chain_aligned_positions`: dimension stacks and the center
section in stack order (skipping empty stacks and unmapped columns), then
the metrics/parameter-grid section. -/
def generate_chain_aligned_positions (cfg : SpacingConfig)
    (aMap : List (String × Nat)) (alignedStacks : Stacks)
    (pm : List (String × Nat)) (g : Conn)
    (specials cals mets params disc calcs : List String) : List Position :=
  (alignedStacks.foldl
    (fun acc p =>
      if p.2 = [] then acc
      else
        match stackXMapping p.1 with
        | none => acc
        | some xk =>
          match pm.lookup xk with
          | none => acc
          | some x =>
            if p.1 = "fact_tables" then
              acc ++ generate_center_positions cfg p.2 x g specials cals
            else
              acc ++ generate_dimension_stack_positions cfg aMap p.2 x p.1 g)
    []) ++ add_additional_table_positions cfg pm mets params disc calcs g

/-! ### Size and collapse invariants of the generated positions -/

lemma foldl_mem_fst {α σ : Type} (P : Position → Prop)
    (f : List Position × σ → α → List Position × σ)
    (hf : ∀ acc a p, p ∈ (f acc a).1 → p ∈ acc.1 ∨ P p) :
    ∀ (l : List α) (acc : List Position × σ) (p : Position),
      p ∈ (l.foldl f acc).1 → p ∈ acc.1 ∨ P p := by
  intro l
  induction l with
  | nil => intro acc p hp; exact Or.inl hp
  | cons a l ih =>
    intro acc p hp
    rcases ih (f acc a) p hp with h | h
    · exact hf acc a p h
    · exact Or.inr h

lemma foldl_mem_plain {α : Type} (P : Position → Prop)
    (f : List Position → α → List Position)
    (hf : ∀ acc a p, p ∈ f acc a → p ∈ acc ∨ P p) :
    ∀ (l : List α) (acc : List Position) (p : Position),
      p ∈ l.foldl f acc → p ∈ acc ∨ P p := by
  intro l
  induction l with
  | nil => intro acc p hp; exact Or.inl hp
  | cons a l ih =>
    intro acc p hp
    rcases ih (f acc a) p hp with h | h
    · exact hf acc a p h
    · exact Or.inr h

lemma mem_dimension_stack {cfg : SpacingConfig} {aMap : List (String × Nat)}
    {tables : List String} {x : Nat} {st : String} {g : Conn} {p : Position}
    (hp : p ∈ generate_dimension_stack_positions cfg aMap tables x st g) :
    p.width = cfg.table_width ∧ p.height = cfg.expanded_height ∧
      p.collapsed = false ∧
      p.category = strReplace st "_dimensions" "_dimension" := by
  simp only [generate_dimension_stack_positions] at hp
  refine Or.elim (foldl_mem_fst (fun q : Position =>
      q.width = cfg.table_width ∧ q.height = cfg.expanded_height ∧
        q.collapsed = false ∧
        q.category = strReplace st "_dimensions" "_dimension") _ ?_ _ _ p hp)
    ?_ id
  · intro acc a q hq
    simp only [List.mem_append, List.mem_singleton] at hq
    rcases hq with hq | hq
    · exact Or.inl hq
    · subst hq; exact Or.inr ⟨rfl, rfl, rfl, rfl⟩
  · intro h
    dsimp only at h
    refine Or.elim (foldl_mem_fst (fun q : Position =>
        q.width = cfg.table_width ∧ q.height = cfg.expanded_height ∧
          q.collapsed = false ∧
          q.category = strReplace st "_dimensions" "_dimension") _ ?_ _ _ p h)
      ?_ id
    · intro acc a q hq
      simp only [List.mem_append, List.mem_singleton] at hq
      rcases hq with hq | hq
      · exact Or.inl hq
      · subst hq; exact Or.inr ⟨rfl, rfl, rfl, rfl⟩
    · intro h0
      simp at h0

lemma mem_center_positions {cfg : SpacingConfig} {facts : List String}
    {cx : Nat} {g : Conn} {specials cals : List String} {p : Position}
    (hp : p ∈ generate_center_positions cfg facts cx g specials cals) :
    p.width = cfg.table_width ∧
      (((p.category = "calendar_connected_special" ∨
            p.category = "calendar") ∧
          p.height = cfg.calendar_table_height ∧ p.collapsed = true) ∨
        (p.category = "fact" ∧ p.height = cfg.expanded_height ∧
          p.collapsed = false)) := by
  simp only [generate_center_positions] at hp
  refine Or.elim (foldl_mem_fst (fun q : Position =>
      q.width = cfg.table_width ∧
        (((q.category = "calendar_connected_special" ∨
              q.category = "calendar") ∧
            q.height = cfg.calendar_table_height ∧ q.collapsed = true) ∨
          (q.category = "fact" ∧ q.height = cfg.expanded_height ∧
            q.collapsed = false))) _ ?_ _ _ p hp) ?_ id
  · intro acc a q hq
    simp only [List.mem_append, List.mem_singleton] at hq
    rcases hq with hq | hq
    · exact Or.inl hq
    · subst hq; exact Or.inr ⟨rfl, Or.inr ⟨rfl, rfl, rfl⟩⟩
  · intro h
    dsimp only at h
    refine Or.elim (foldl_mem_fst (fun q : Position =>
        q.width = cfg.table_width ∧
          (((q.category = "calendar_connected_special" ∨
                q.category = "calendar") ∧
              q.height = cfg.calendar_table_height ∧ q.collapsed = true) ∨
            (q.category = "fact" ∧ q.height = cfg.expanded_height ∧
              q.collapsed = false))) _ ?_ _ _ p h) ?_ id
    · intro acc a q hq
      simp only [List.mem_append, List.mem_singleton] at hq
      rcases hq with hq | hq
      · exact Or.inl hq
      · subst hq; exact Or.inr ⟨rfl, Or.inl ⟨Or.inr rfl, rfl, rfl⟩⟩
    · intro h'
      dsimp only at h'
      refine Or.elim (foldl_mem_fst (fun q : Position =>
          q.width = cfg.table_width ∧
            (((q.category = "calendar_connected_special" ∨
                  q.category = "calendar") ∧
                q.height = cfg.calendar_table_height ∧ q.collapsed = true) ∨
              (q.category = "fact" ∧ q.height = cfg.expanded_height ∧
                q.collapsed = false))) _ ?_ _ _ p h') ?_ id
      · intro acc a q hq
        simp only [List.mem_append, List.mem_singleton] at hq
        rcases hq with hq | hq
        · exact Or.inl hq
        · subst hq; exact Or.inr ⟨rfl, Or.inl ⟨Or.inl rfl, rfl, rfl⟩⟩
      · intro h0
        simp at h0

lemma mem_parameter_grid {cfg : SpacingConfig} {tables : List String}
    {sx sy : Nat} {g : Conn} {p : Position}
    (hp : p ∈ generate_parameter_grid_positions cfg tables sx sy g) :
    p.width = cfg.table_width ∧ p.height = cfg.expanded_height ∧
      p.collapsed = false ∧ p.category = "parameter_grid" := by
  simp only [generate_parameter_grid_positions] at hp
  refine Or.elim (foldl_mem_plain (fun q : Position =>
      q.width = cfg.table_width ∧ q.height = cfg.expanded_height ∧
        q.collapsed = false ∧ q.category = "parameter_grid") _ ?_ _ _ p hp)
    ?_ id
  · intro acc a q hq
    simp only [List.mem_append, List.mem_singleton] at hq
    rcases hq with hq | hq
    · exact Or.inl hq
    · subst hq; exact Or.inr ⟨rfl, rfl, rfl, rfl⟩
  · intro h0
    simp at h0

lemma mem_additional_positions {cfg : SpacingConfig}
    {pm : List (String × Nat)} {mets params disc calcs : List String}
    {g : Conn} {p : Position}
    (hp : p ∈ add_additional_table_positions cfg pm mets params disc calcs g) :
    p.width = cfg.table_width ∧ p.height = cfg.expanded_height ∧
      p.collapsed = false ∧
      (p.category = "metrics" ∨ p.category = "parameter_grid") := by
  simp only [add_additional_table_positions] at hp
  rw [List.mem_append] at hp
  rcases hp with hp | hp
  · split at hp
    · split at hp
      · refine Or.elim (foldl_mem_fst (fun q : Position =>
            q.width = cfg.table_width ∧ q.height = cfg.expanded_height ∧
              q.collapsed = false ∧
              (q.category = "metrics" ∨ q.category = "parameter_grid")) _
            ?_ _ _ p hp) ?_ id
        · intro acc a q hq
          simp only [List.mem_append, List.mem_singleton] at hq
          rcases hq with hq | hq
          · exact Or.inl hq
          · subst hq; exact Or.inr ⟨rfl, rfl, rfl, Or.inl rfl⟩
        · intro h0
          simp at h0
      · simp at hp
    · simp at hp
  · split at hp
    · split at hp
      · split at hp
        · have h := mem_parameter_grid hp
          exact ⟨h.1, h.2.1, h.2.2.1, Or.inr h.2.2.2⟩
        · simp at hp
      · simp at hp
    · simp at hp

/-- The eight non-fact stack names the generator maps to columns never yield
the calendar categories. -/
lemma dim_category_sized {q : Position} (st : String)
    (hd : q.width = engineSpacing.table_width ∧
      q.height = engineSpacing.expanded_height ∧ q.collapsed = false ∧
      q.category = strReplace st "_dimensions" "_dimension")
    (hne1 : strReplace st "_dimensions" "_dimension" ≠ "calendar")
    (hne2 : strReplace st "_dimensions" "_dimension" ≠
      "calendar_connected_special") :
    q.width = 200 ∧
      ((q.category = "calendar" ∨
          q.category = "calendar_connected_special") →
        q.height = 140 ∧ q.collapsed = true) ∧
      (¬(q.category = "calendar" ∨
          q.category = "calendar_connected_special") →
        q.height = 180 ∧ q.collapsed = false) := by
  refine ⟨hd.1, ?_, fun _ => ⟨hd.2.1, hd.2.2.1⟩⟩
  intro hcc
  rcases hcc with h | h
  · rw [hd.2.2.2] at h; exact absurd h hne1
  · rw [hd.2.2.2] at h; exact absurd h hne2

/-- C10: every Position record the chain-aware generator produces at the
engine's spacing configuration has width exactly the configured table width
200; the calendar tables and calendar-connected specials are exactly the
records with height 140 and `collapsed = true`; every other record — the
dimension stacks, the fact section, the metrics column and the parameter
grid — has height 180 and `collapsed = false`. -/
theorem C10_uniform_sizes (aMap : List (String × Nat)) (s : Stacks)
    (pm : List (String × Nat)) (g : Conn)
    (specials cals mets params disc calcs : List String) :
    ∀ p ∈ generate_chain_aligned_positions engineSpacing aMap s pm g
        specials cals mets params disc calcs,
      p.width = 200 ∧
        ((p.category = "calendar" ∨
            p.category = "calendar_connected_special") →
          p.height = 140 ∧ p.collapsed = true) ∧
        (¬(p.category = "calendar" ∨
            p.category = "calendar_connected_special") →
          p.height = 180 ∧ p.collapsed = false) := by
  intro p hp
  simp only [generate_chain_aligned_positions] at hp
  rw [List.mem_append] at hp
  rcases hp with hp | hp
  · refine Or.elim (foldl_mem_plain (fun q : Position =>
        q.width = 200 ∧
          ((q.category = "calendar" ∨
              q.category = "calendar_connected_special") →
            q.height = 140 ∧ q.collapsed = true) ∧
          (¬(q.category = "calendar" ∨
              q.category = "calendar_connected_special") →
            q.height = 180 ∧ q.collapsed = false)) _ ?_ _ _ p hp)
      ?_ id
    · intro acc a q hq
      by_cases h2 : a.2 = []
      · rw [if_pos h2] at hq
        exact Or.inl hq
      · rw [if_neg h2] at hq
        rcases hx : stackXMapping a.1 with _ | xk
        · simp only [hx] at hq
          exact Or.inl hq
        · simp only [hx] at hq
          rcases hlk : pm.lookup xk with _ | x
          · simp only [hlk] at hq
            exact Or.inl hq
          · simp only [hlk] at hq
            by_cases hnf : a.1 = "fact_tables"
            · rw [if_pos hnf, List.mem_append] at hq
              rcases hq with hq | hq
              · exact Or.inl hq
              · have hc := mem_center_positions hq
                refine Or.inr ⟨hc.1, ?_, ?_⟩
                · intro hcc
                  rcases hc.2 with hcal | hfact
                  · exact ⟨hcal.2.1, hcal.2.2⟩
                  · rcases hcc with h | h
                    · rw [hfact.1] at h; exact absurd h (by decide)
                    · rw [hfact.1] at h; exact absurd h (by decide)
                · intro hn
                  rcases hc.2 with hcal | hfact
                  · exact (hn (hcal.1.elim Or.inr Or.inl)).elim
                  · exact ⟨hfact.2.1, hfact.2.2⟩
            · rw [if_neg hnf, List.mem_append] at hq
              rcases hq with hq | hq
              · exact Or.inl hq
              · have hd := mem_dimension_stack hq
                simp only [stackXMapping] at hx
                split_ifs at hx with e1 e2 e3 e4 e5 e6 e7 e8
                · exact Or.inr (dim_category_sized _ (e1 ▸ hd)
                    (by decide) (by decide))
                · exact Or.inr (dim_category_sized _ (e2 ▸ hd)
                    (by decide) (by decide))
                · exact Or.inr (dim_category_sized _ (e3 ▸ hd)
                    (by decide) (by decide))
                · exact Or.inr (dim_category_sized _ (e4 ▸ hd)
                    (by decide) (by decide))
                · exact Or.inr (dim_category_sized _ (e5 ▸ hd)
                    (by decide) (by decide))
                · exact Or.inr (dim_category_sized _ (e6 ▸ hd)
                    (by decide) (by decide))
                · exact Or.inr (dim_category_sized _ (e7 ▸ hd)
                    (by decide) (by decide))
                · exact Or.inr (dim_category_sized _ (e8 ▸ hd)
                    (by decide) (by decide))
    · intro h0
      simp at h0
  · have hd := mem_additional_positions hp
    refine ⟨hd.1, ?_, fun _ => ⟨hd.2.1, hd.2.2.1⟩⟩
    intro hcc
    rcases hd.2.2.2 with h | h <;> rcases hcc with h' | h' <;>
      rw [h] at h' <;> exact absurd h' (by decide)

/-- The calendar record the generator produces for the witness model below
(fact `sales`, calendar `date`, no relationships). -/
def calendarSample : Position :=
  { nodeIndex := "date", x := 50, y := 50, width := 200, height := 140,
    zIndex := 0, category := "calendar", collapsed := true,
    connection_count := 0 }

/-- Witness for C10: on a model with fact `sales` and calendar `date`, the
generated calendar record has width 200, height 140 and is collapsed. -/
theorem C10_uniform_sizes_witness :
    calendarSample ∈
        generate_chain_aligned_positions engineSpacing []
          [("fact_tables", ["sales"])] [("center", 50)] [] [] ["date"]
          [] [] [] [] ∧
      (calendarSample.width = 200 ∧
        ((calendarSample.category = "calendar" ∨
            calendarSample.category = "calendar_connected_special") →
          calendarSample.height = 140 ∧ calendarSample.collapsed = true) ∧
        (¬(calendarSample.category = "calendar" ∨
            calendarSample.category = "calendar_connected_special") →
          calendarSample.height = 180 ∧ calendarSample.collapsed = false)) :=
  ⟨by decide,
    C10_uniform_sizes [] [("fact_tables", ["sales"])] [("center", 50)] []
      [] ["date"] [] [] [] [] calendarSample (by decide)⟩

/-- C1 evidence: on the valid one-table model `["date"]` with no
relationships, the table survives Phase 0 and is categorized as a calendar
table, the position calculator allocates the center column, yet the
generator returns an empty position list — the calendar section is emitted
only while processing the (empty, hence skipped) `fact_tables` stack, so the
calendar table is silently dropped and the completeness invariant fails. -/
theorem C1_calendar_only_table_dropped :
    identify_auto_date_tables (fun _ => {}) ["date"] = [] ∧
      (categorize_tables (fun _ => {}) [] ["date"]
        (build_relationship_graph [] ["date"])).calendar_tables = ["date"] ∧
      (categorize_tables (fun _ => {}) [] ["date"]
        (build_relationship_graph [] ["date"])).fact_tables = [] ∧
      identify_calendar_connected_specials
        (build_relationship_graph [] ["date"]) ["date"] ["date"] [] = [] ∧
      calculate_canvas_positions engineSpacing
        { calendar_tables := ["date"] } 1400 = [("center", 50)] ∧
      optimize_universal_stack_alignment
          [("left_l4_dimensions", []), ("left_l3_dimensions", []),
           ("left_l2_dimensions", []), ("left_l1_dimensions", []),
           ("fact_tables", []), ("right_l1_dimensions", []),
           ("right_l2_dimensions", []), ("right_l3_dimensions", []),
           ("right_l4_dimensions", [])]
          (build_relationship_graph [] ["date"]) =
        [("left_l4_dimensions", []), ("left_l3_dimensions", []),
         ("left_l2_dimensions", []), ("left_l1_dimensions", []),
         ("fact_tables", []), ("right_l1_dimensions", []),
         ("right_l2_dimensions", []), ("right_l3_dimensions", []),
         ("right_l4_dimensions", [])] ∧
      generate_chain_aligned_positions engineSpacing []
        [("left_l4_dimensions", []), ("left_l3_dimensions", []),
         ("left_l2_dimensions", []), ("left_l1_dimensions", []),
         ("fact_tables", []), ("right_l1_dimensions", []),
         ("right_l2_dimensions", []), ("right_l3_dimensions", []),
         ("right_l4_dimensions", [])]
        [("center", 50)] (build_relationship_graph [] ["date"]) []
        ["date"] [] [] [] [] = [] := by
  exact ⟨by decide, by decide, by decide, by decide, by decide, by decide,
    by decide⟩

end PbipLayout
